import Mathlib

/- Verification development for the Live Tab Groups browser extension.

   The reconciliation engine (`syncGroup`, `syncAll`) and the tab matcher
   (`tabsByExactUrls`) are shallowly embedded from `src/background.js`.
   The GitHub provider (`ghFetchUrls`, `ghNormalizeUrl`) is embedded from
   `src/providers/github-prs.js`.  Strings are modelled as `List Char`;
   the browser tab/group store is an explicit `BrowserState` record and
   every host primitive (`browser.tabs.*`, `browser.tabGroups.*`) is a
   pure state transformer.  Remote fetches are modelled by passing the
   fetch outcome (`Except`) as an argument; the network itself is an
   oracle (`GhNet`). -/

set_option maxHeartbeats 1000000

abbrev Str := List Char

abbrev Url := List Char

/-- Browser tab record: `id`, `url` (absent while a tab has no committed
URL) and the tab group the tab belongs to (`none` = ungrouped). -/
structure Tab where
  id : Nat
  url : Option Url
  groupId : Option Nat
deriving DecidableEq, Repr

/-- Browser tab-group record, mirroring `browser.tabGroups` entries. -/
structure TabGroup where
  id : Nat
  title : Str
  color : Str
  windowId : Nat
deriving DecidableEq, Repr

/-- The host browser's tab/group store, with counters supplying fresh ids. -/
structure BrowserState where
  tabs : List Tab
  groups : List TabGroup
  nextTabId : Nat
  nextGroupId : Nat
deriving DecidableEq, Repr

/-- Provider capability as consumed by the engine: an optional URL
normalizer and the tab match pattern, modelled as the predicate the
host's `browser.tabs.query({ url })` applies to a tab's URL. -/
structure Provider where
  normalizeUrl : Option (Url → Url)
  tabMatchPred : Url → Bool

/-- Per-provider sync configuration (the fields the engine reads). -/
structure SyncConfig where
  enabled : Bool
  groupTitle : Str
  groupColor : Str
  closeMissing : Bool
deriving DecidableEq, Repr

/-- Apply the provider's normalizer when present, identity otherwise:
`provider.normalizeUrl ? provider.normalizeUrl(url) : url`. -/
def normOf (p : Provider) (u : Url) : Url :=
  match p.normalizeUrl with
  | some f => f u
  | none => u

/-- Host primitive `browser.tabGroups.query({ windowId })`. -/
def tabGroupsQuery (windowId : Nat) (st : BrowserState) : List TabGroup :=
  st.groups.filter (fun g => g.windowId == windowId)

/-- Host primitive `browser.tabGroups.update(gid, { title, color })`. -/
def tabGroupsUpdate (gid : Nat) (title color : Str) (st : BrowserState) : BrowserState :=
  { st with groups := st.groups.map (fun g =>
      if g.id == gid then { g with title := title, color := color } else g) }

/-- Host primitive `browser.tabs.query({ groupId })`. -/
def tabsInGroup (gid : Nat) (st : BrowserState) : List Tab :=
  st.tabs.filter (fun t => t.groupId == some gid)

/-- Host query filter: a tab is a candidate iff it has a URL matching the
provider's tab match pattern. -/
def matchesQuery (p : Provider) (t : Tab) : Bool :=
  match t.url with
  | some u => p.tabMatchPred u
  | none => false

/-- Host primitive `browser.tabs.query({ url: [matchPattern] })`. -/
def tabsQueryPattern (p : Provider) (st : BrowserState) : List Tab :=
  st.tabs.filter (matchesQuery p)

/-- Host primitive `browser.tabs.create({ url, active: false, windowId })`:
the new tab gets the next fresh id and is initially ungrouped. -/
def tabsCreate (u : Url) (windowId : Nat) (st : BrowserState) : Tab × BrowserState :=
  let t : Tab := { id := st.nextTabId, url := some u, groupId := none }
  (t, { st with tabs := st.tabs ++ [t], nextTabId := st.nextTabId + 1 })

/-- Host primitive `browser.tabs.group({ tabIds, createProperties })`:
creates a fresh group in the window and moves the listed tabs into it. -/
def tabsGroupCreate (tabIds : List Nat) (windowId : Nat) (st : BrowserState) : Nat × BrowserState :=
  let gid := st.nextGroupId
  let g : TabGroup := { id := gid, title := [], color := [], windowId := windowId }
  (gid,
    { st with
      groups := st.groups ++ [g],
      tabs := st.tabs.map (fun t =>
        if tabIds.contains t.id then { t with groupId := some gid } else t),
      nextGroupId := gid + 1 })

/-- Host primitive `browser.tabs.group({ groupId, tabIds })`: moves the
listed tabs into an existing group. -/
def tabsGroupAdd (gid : Nat) (tabIds : List Nat) (st : BrowserState) : BrowserState :=
  { st with tabs := st.tabs.map (fun t =>
      if tabIds.contains t.id then { t with groupId := some gid } else t) }

/-- Host primitive `browser.tabs.remove(tabIds)`. -/
def tabsRemove (tabIds : List Nat) (st : BrowserState) : BrowserState :=
  { st with tabs := st.tabs.filter (fun t => !(tabIds.contains t.id)) }

/-- Source `findGroupByTitle`: first group in the window whose title
matches exactly. -/
def findGroupByTitle (title : Str) (windowId : Nat) (st : BrowserState) : Option TabGroup :=
  (tabGroupsQuery windowId st).find? (fun g => g.title == title)

/-- Source `findOrCreateGroup`: if a titled group exists, repair its
title/color and return its id; otherwise return `none` (creation is
deferred until real tab ids are known). -/
def findOrCreateGroup (windowId : Nat) (title color : Str) (st : BrowserState) :
    Option Nat × BrowserState :=
  match findGroupByTitle title windowId st with
  | some existing => (some existing.id, tabGroupsUpdate existing.id title color st)
  | none => (none, st)

/-- JavaScript `Map.set` semantics on an association list: overwrite the
value in place when the key is present, append otherwise. -/
def listSet [DecidableEq α] (k : α) (v : β) : List (α × β) → List (α × β)
  | [] => [(k, v)]
  | (k', v') :: rest => if k' = k then (k, v) :: rest else (k', v') :: listSet k v rest

/-- JavaScript `Map.get` semantics on an association list. -/
def listGet [DecidableEq α] (k : α) : List (α × β) → Option β
  | [] => none
  | (k', v') :: rest => if k' = k then some v' else listGet k rest

/-- Source `tabsByExactUrls`, reverse-map construction: for each desired
URL (in order), `normalizedToOriginal.set(normalized, url)` — so the
last-seen original URL wins on a collision of normalized forms. -/
def buildRev (p : Provider) (urls : List Url) : List (Url × Url) :=
  urls.foldl (fun m u => listSet (normOf p u) u m) []

/-- Source `tabsByExactUrls`, `normalizedExpected` set: membership in the
set of normalized desired URLs. -/
def normalizedExpected (p : Provider) (urls : List Url) : List Url :=
  urls.map (normOf p)

/-- Loop body of `tabsByExactUrls` over the candidate tabs: skip tabs
without a URL, look the normalized URL up in the expected set, and map
the original desired URL back to this tab (`map.set`, last tab wins). -/
def tabStep (p : Provider) (rev : List (Url × Url)) (expected : List Url)
    (m : List (Url × Tab)) (t : Tab) : List (Url × Tab) :=
  match t.url with
  | none => m
  | some w =>
    if expected.contains (normOf p w) then
      match listGet (normOf p w) rev with
      | some orig => listSet orig t m
      | none => m
    else m

/-- Source `tabsByExactUrls`: maps each desired URL (via its normalized
form) to an open candidate tab representing it. -/
def tabsByExactUrls (p : Provider) (urls : List Url) (st : BrowserState) :
    List (Url × Tab) :=
  (tabsQueryPattern p st).foldl
    (tabStep p (buildRev p urls) (normalizedExpected p urls)) []

/-- The URL of a tab that is still loading. -/
def blankUrl : Url := "about:blank".toList

/-- Pruning candidate test from `syncGroup`: a tab is closed iff it has a
fully-resolved URL (present and not `about:blank`) whose normalized form
is not among the normalized desired URLs. -/
def prunePred (p : Provider) (keep : List Url) (t : Tab) : Bool :=
  match t.url with
  | none => false
  | some u => !(u == blankUrl) && !(keep.contains (normOf p u))

/-- Pruning step of `syncGroup`: re-read the group membership, filter the
closable tabs, and close them in one batched call (the all-tabs case is
only warned about, never blocked). -/
def pruneStep (p : Provider) (urls : List Url) (g : Nat) (st : BrowserState) :
    BrowserState × List Nat :=
  if ((tabsInGroup g st).filter (prunePred p (normalizedExpected p urls))).isEmpty then
    (st, [])
  else
    (tabsRemove (((tabsInGroup g st).filter
        (prunePred p (normalizedExpected p urls))).map (fun t => t.id)) st,
     ((tabsInGroup g st).filter
        (prunePred p (normalizedExpected p urls))).map (fun t => t.id))

/-- How one `syncGroup` pass ended. -/
inductive SyncOutcome where
  | providerMissing
  | disabled
  | emptyAborted
  | fetchFailed (e : Str)
  | ok
deriving DecidableEq, Repr

/-- Record of the host mutations one `syncGroup` pass issued. -/
structure SyncLog where
  outcome : SyncOutcome
  createdUrls : List Url
  createdTabs : List Nat
  groupedTabs : List Nat
  closedTabs : List Nat
  createdGroup : Option Nat
deriving DecidableEq, Repr

/-- Result of one `syncGroup` pass: final browser state plus the log. -/
structure SyncResult where
  state : BrowserState
  log : SyncLog
deriving DecidableEq, Repr

/-- Log for a pass that aborted before mutating tabs. -/
def emptyLog (o : SyncOutcome) : SyncLog :=
  { outcome := o, createdUrls := [], createdTabs := [], groupedTabs := [],
    closedTabs := [], createdGroup := none }

/-- Sequential creation loop of `syncGroup`: one `browser.tabs.create`
per missing URL, in desired-set order. -/
def createTabsLoop (need : List Url) (windowId : Nat) (st : BrowserState) :
    List Tab × BrowserState :=
  match need with
  | [] => ([], st)
  | u :: rest =>
    let c := tabsCreate u windowId st
    let r := createTabsLoop rest windowId c.2
    (c.1 :: r.1, r.2)

/-- Result of the group-placement step. -/
structure PlaceResult where
  groupId : Option Nat
  grouped : List Nat
  created : Option Nat
  state : BrowserState
deriving DecidableEq, Repr

/-- Group placement from `syncGroup`: create the group with the full tab
set when none exists, else add only the tab ids not already members. -/
def placeTabs (cfg : SyncConfig) (windowId : Nat) (groupIdOpt : Option Nat)
    (allTabIds : List Nat) (st : BrowserState) : PlaceResult :=
  match groupIdOpt with
  | none =>
    if allTabIds.isEmpty then ⟨none, [], none, st⟩
    else
      let c := tabsGroupCreate allTabIds windowId st
      ⟨some c.1, allTabIds, some c.1,
        tabGroupsUpdate c.1 cfg.groupTitle cfg.groupColor c.2⟩
  | some g =>
    if allTabIds.isEmpty then ⟨some g, [], none, st⟩
    else
      let already := (tabsInGroup g st).map (fun t => t.id)
      let toAdd := allTabIds.filter (fun i => !(already.contains i))
      if toAdd.isEmpty then ⟨some g, [], none, st⟩
      else ⟨some g, toAdd, none, tabsGroupAdd g toAdd st⟩

/-- Empty-result safeguard of `syncGroup`: the fetched desired set is
empty while the pre-existing group still holds at least one tab. -/
def safeguardHit (urls : List Url) (groupIdOpt : Option Nat) (st : BrowserState) : Bool :=
  match groupIdOpt with
  | some g => urls.isEmpty && !(tabsInGroup g st).isEmpty
  | none => false

/-- The `need` list of `syncGroup`: desired URLs with no matching tab. -/
def syncNeed (p : Provider) (urls : List Url) (st : BrowserState) : List Url :=
  urls.filter (fun u => (listGet u (tabsByExactUrls p urls st)).isNone)

/-- Matching-plus-creation accumulator `allTabIds`: ids of matched tabs
followed by ids of freshly created tabs. -/
def syncAllIds (p : Provider) (urls : List Url) (windowId : Nat) (st : BrowserState) :
    List Nat :=
  (tabsByExactUrls p urls st).map (fun e => e.2.id) ++
    (createTabsLoop (syncNeed p urls st) windowId st).1.map (fun t => t.id)

/-- Group-placement stage of one pass, applied to the post-creation state. -/
def syncPlace (p : Provider) (urls : List Url) (cfg : SyncConfig) (windowId : Nat)
    (groupIdOpt : Option Nat) (st : BrowserState) : PlaceResult :=
  placeTabs cfg windowId groupIdOpt (syncAllIds p urls windowId st)
    (createTabsLoop (syncNeed p urls st) windowId st).2

/-- Pruning stage of one pass (post-placement state and closed ids). -/
def syncPrune (p : Provider) (urls : List Url) (cfg : SyncConfig) (windowId : Nat)
    (groupIdOpt : Option Nat) (st : BrowserState) : BrowserState × List Nat :=
  match (syncPlace p urls cfg windowId groupIdOpt st).groupId with
  | some g =>
    if cfg.closeMissing then
      pruneStep p urls g (syncPlace p urls cfg windowId groupIdOpt st).state
    else ((syncPlace p urls cfg windowId groupIdOpt st).state, [])
  | none => ((syncPlace p urls cfg windowId groupIdOpt st).state, [])

/-- Body of `syncGroup` after provider/enabled/fetch/safeguard checks:
match existing tabs, create the missing ones, place everything in the
group, then prune when `closeMissing` is on. -/
def syncCore (p : Provider) (urls : List Url) (cfg : SyncConfig) (windowId : Nat)
    (groupIdOpt : Option Nat) (st : BrowserState) : SyncResult :=
  { state := (syncPrune p urls cfg windowId groupIdOpt st).1,
    log := { outcome := .ok, createdUrls := syncNeed p urls st,
             createdTabs :=
               (createTabsLoop (syncNeed p urls st) windowId st).1.map (fun t => t.id),
             groupedTabs := (syncPlace p urls cfg windowId groupIdOpt st).grouped,
             closedTabs := (syncPrune p urls cfg windowId groupIdOpt st).2,
             createdGroup := (syncPlace p urls cfg windowId groupIdOpt st).created } }

/-- Source `syncGroup`: one reconciliation pass for one provider.  The
provider lookup result and the provider's fetch outcome are passed in
(the fetch is external I/O); everything else mirrors the source. -/
def syncGroup (providerOpt : Option Provider) (fetched : Except Str (List Url))
    (cfg : SyncConfig) (windowId : Nat) (st : BrowserState) : SyncResult :=
  match providerOpt with
  | none => ⟨st, emptyLog .providerMissing⟩
  | some p =>
    if cfg.enabled then
      let fc := findOrCreateGroup windowId cfg.groupTitle cfg.groupColor st
      match fetched with
      | .error e => ⟨fc.2, emptyLog (.fetchFailed e)⟩
      | .ok urls =>
        if safeguardHit urls fc.1 fc.2 then ⟨fc.2, emptyLog .emptyAborted⟩
        else syncCore p urls cfg windowId fc.1 fc.2
    else ⟨st, emptyLog .disabled⟩

/-- One provider entry of a sweep: lookup result, fetch outcome, config. -/
structure SweepEntry where
  providerOpt : Option Provider
  fetched : Except Str (List Url)
  config : SyncConfig

/-- One iteration of the `syncAll` loop: disabled providers are skipped
at the sweep level; a failed pass is caught (its outcome is recorded and
its partial state kept) and never propagates. -/
def runEntry (e : SweepEntry) (windowId : Nat) (st : BrowserState) :
    BrowserState × Option SyncLog :=
  if e.config.enabled then
    let r := syncGroup e.providerOpt e.fetched e.config windowId st
    (r.state, some r.log)
  else (st, none)

/-- Source `syncAll`: sequential sweep over all configured providers,
isolating per-provider failures. -/
def syncAll (entries : List SweepEntry) (windowId : Nat) (st : BrowserState) :
    BrowserState × List (Option SyncLog) :=
  match entries with
  | [] => (st, [])
  | e :: rest =>
    let r := runEntry e windowId st
    let rr := syncAll rest windowId r.1
    (rr.1, r.2 :: rr.2)

/-- Well-formed browser state: tab ids and group ids are pairwise
distinct and below their respective counters (what the host guarantees). -/
def WFState (st : BrowserState) : Prop :=
  st.tabs.Pairwise (fun a b => a.id ≠ b.id) ∧
  (∀ t ∈ st.tabs, t.id < st.nextTabId) ∧
  st.groups.Pairwise (fun a b => a.id ≠ b.id) ∧
  (∀ g ∈ st.groups, g.id < st.nextGroupId)

instance (st : BrowserState) : Decidable (WFState st) := by
  unfold WFState; infer_instance

lemma tabGroupsUpdate_tabs (gid : Nat) (title color : Str) (st : BrowserState) :
    (tabGroupsUpdate gid title color st).tabs = st.tabs := rfl

lemma tabsInGroup_tabGroupsUpdate (g gid : Nat) (title color : Str) (st : BrowserState) :
    tabsInGroup g (tabGroupsUpdate gid title color st) = tabsInGroup g st := rfl

lemma tabsQueryPattern_tabGroupsUpdate (p : Provider) (gid : Nat) (title color : Str)
    (st : BrowserState) :
    tabsQueryPattern p (tabGroupsUpdate gid title color st) = tabsQueryPattern p st := rfl

/-- Distinct-id states identify a tab record by its id. -/
lemma eq_of_mem_of_id_eq {l : List Tab} (hdist : l.Pairwise (fun a b => a.id ≠ b.id))
    {a b : Tab} (ha : a ∈ l) (hb : b ∈ l) (hid : a.id = b.id) : a = b := by
  by_contra hne
  have hsymm : Symmetric (fun a b : Tab => a.id ≠ b.id) := fun x y h e => h e.symm
  exact hdist.forall hsymm ha hb hne hid

/-- C1: when the fetched desired set is empty and the titled group already
exists with at least one tab, the pass aborts with the warning-level
outcome before matching/creation/grouping/pruning: no tab is created,
grouped or closed, the tab list is untouched, and the group's tab count
is unchanged. -/
theorem syncGroup_empty_safeguard_aborts
    (p : Provider) (cfg : SyncConfig) (w : Nat) (st : BrowserState) (gr : TabGroup)
    (hen : cfg.enabled = true)
    (hg : findGroupByTitle cfg.groupTitle w st = some gr)
    (hne : tabsInGroup gr.id st ≠ []) :
    (syncGroup (some p) (.ok []) cfg w st).log = emptyLog .emptyAborted ∧
    (syncGroup (some p) (.ok []) cfg w st).state.tabs = st.tabs ∧
    tabsInGroup gr.id (syncGroup (some p) (.ok []) cfg w st).state =
      tabsInGroup gr.id st := by
  have hfc : findOrCreateGroup w cfg.groupTitle cfg.groupColor st =
      (some gr.id, tabGroupsUpdate gr.id cfg.groupTitle cfg.groupColor st) := by
    unfold findOrCreateGroup; rw [hg]
  have hsg : safeguardHit [] (some gr.id)
      (tabGroupsUpdate gr.id cfg.groupTitle cfg.groupColor st) = true := by
    unfold safeguardHit
    simp [tabsInGroup_tabGroupsUpdate, List.isEmpty_iff, hne]
  have hrun : syncGroup (some p) (.ok []) cfg w st =
      ⟨tabGroupsUpdate gr.id cfg.groupTitle cfg.groupColor st, emptyLog .emptyAborted⟩ := by
    unfold syncGroup
    rw [hen]
    simp only [if_true, hfc, hsg, if_true]
  rw [hrun]
  exact ⟨rfl, rfl, rfl⟩

/-- C1 witness: a concrete run of the empty-result safeguard. -/
theorem syncGroup_empty_safeguard_aborts_witness :
    (let p : Provider := ⟨none, fun _ => true⟩
     let cfg : SyncConfig := ⟨true, ['G'], ['b'], true⟩
     let st : BrowserState :=
       ⟨[⟨1, some ['x'], some 5⟩], [⟨5, ['G'], ['r'], 7⟩], 2, 6⟩
     (syncGroup (some p) (.ok []) cfg 7 st).log = emptyLog .emptyAborted ∧
     (syncGroup (some p) (.ok []) cfg 7 st).state.tabs = st.tabs ∧
     tabsInGroup 5 (syncGroup (some p) (.ok []) cfg 7 st).state =
       tabsInGroup 5 st) := by
  exact syncGroup_empty_safeguard_aborts
    ⟨none, fun _ => true⟩ ⟨true, ['G'], ['b'], true⟩ 7
    ⟨[⟨1, some ['x'], some 5⟩], [⟨5, ['G'], ['r'], 7⟩], 2, 6⟩
    ⟨5, ['G'], ['r'], 7⟩ rfl (by decide) (by decide)

/-- C5: the pruning step never includes a tab whose URL is absent or
still `about:blank` in the set of tabs passed to the close call,
whatever the desired set contains. -/
theorem pruneStep_never_closes_blank
    (p : Provider) (urls : List Url) (g : Nat) (st : BrowserState) (t : Tab)
    (hdist : st.tabs.Pairwise (fun a b => a.id ≠ b.id))
    (ht : t ∈ tabsInGroup g st)
    (hu : t.url = none ∨ t.url = some blankUrl) :
    t.id ∉ (pruneStep p urls g st).2 := by
  have htmem : t ∈ st.tabs := List.mem_of_mem_filter ht
  unfold pruneStep
  by_cases hempty :
      ((tabsInGroup g st).filter (prunePred p (normalizedExpected p urls))).isEmpty
  · simp [hempty]
  · simp only [hempty, if_neg, Bool.false_eq_true, not_false_iff, if_false,
      List.mem_map, not_exists, not_and]
    intro t' ht' hid
    have ht'g : t' ∈ tabsInGroup g st := List.mem_of_mem_filter ht'
    have ht'mem : t' ∈ st.tabs := List.mem_of_mem_filter ht'g
    have hpred : prunePred p (normalizedExpected p urls) t' = true :=
      List.of_mem_filter ht'
    have : t' = t := eq_of_mem_of_id_eq hdist ht'mem htmem hid
    subst this
    rcases hu with hnone | hblank
    · unfold prunePred at hpred
      rw [hnone] at hpred
      exact absurd hpred (by simp)
    · unfold prunePred at hpred
      rw [hblank] at hpred
      simp at hpred

/-- C5 witness: a loading (blank) tab sits in the group next to a stale
tab; only the stale tab is closed. -/
theorem pruneStep_never_closes_blank_witness :
    (let p : Provider := ⟨none, fun _ => true⟩
     let st : BrowserState :=
       ⟨[⟨1, some blankUrl, some 5⟩, ⟨2, some ['y'], some 5⟩], [⟨5, ['G'], ['b'], 7⟩], 3, 6⟩
     (1 : Nat) ∉ (pruneStep p [['x']] 5 st).2) := by
  exact pruneStep_never_closes_blank
    ⟨none, fun _ => true⟩ [['x']] 5
    ⟨[⟨1, some blankUrl, some 5⟩, ⟨2, some ['y'], some 5⟩], [⟨5, ['G'], ['b'], 7⟩], 3, 6⟩
    ⟨1, some blankUrl, some 5⟩ (by decide) (by decide) (Or.inr rfl)

/-- C6: when every tab currently in the group has a fully-resolved URL
whose normalized form is outside the normalized desired set, the prune
step still executes the close call on the entire membership — nothing
blocks it. -/
theorem pruneStep_closes_entire_group
    (p : Provider) (urls : List Url) (g : Nat) (st : BrowserState)
    (hne : tabsInGroup g st ≠ [])
    (hall : ∀ t ∈ tabsInGroup g st, ∃ u, t.url = some u ∧ u ≠ blankUrl ∧
      (normalizedExpected p urls).contains (normOf p u) = false) :
    (pruneStep p urls g st).2 = (tabsInGroup g st).map (fun t => t.id) ∧
    (pruneStep p urls g st).1 =
      tabsRemove ((tabsInGroup g st).map (fun t => t.id)) st := by
  have hfilter : (tabsInGroup g st).filter (prunePred p (normalizedExpected p urls)) =
      tabsInGroup g st := by
    apply List.filter_eq_self.mpr
    intro t ht
    rcases hall t ht with ⟨u, hu, hnb, hnc⟩
    unfold prunePred
    rw [hu]
    show (!(u == blankUrl) && !((normalizedExpected p urls).contains (normOf p u))) = true
    rw [hnc]
    simp [hnb]
  unfold pruneStep
  rw [hfilter]
  have : (tabsInGroup g st).isEmpty = false := by
    rw [List.isEmpty_eq_false]
    exact hne
  rw [this]
  simp

/-- C6 witness: both tabs of the group are stale; both are closed and the
state reflects the batched remove. -/
theorem pruneStep_closes_entire_group_witness :
    (let p : Provider := ⟨none, fun _ => true⟩
     let st : BrowserState :=
       ⟨[⟨1, some ['y'], some 5⟩, ⟨2, some ['z'], some 5⟩], [⟨5, ['G'], ['b'], 7⟩], 3, 6⟩
     (pruneStep p [['x']] 5 st).2 = [1, 2] ∧
     (pruneStep p [['x']] 5 st).1 = tabsRemove [1, 2] st) := by
  have h := pruneStep_closes_entire_group
    ⟨none, fun _ => true⟩ [['x']] 5
    ⟨[⟨1, some ['y'], some 5⟩, ⟨2, some ['z'], some 5⟩], [⟨5, ['G'], ['b'], 7⟩], 3, 6⟩
    (by decide)
    (by
      intro t ht
      fin_cases ht
      · exact ⟨['y'], rfl, by decide, by decide⟩
      · exact ⟨['z'], rfl, by decide, by decide⟩)
  simpa using h

/-- Parsed form of a URL, modelling the fields of a JavaScript `URL`
object that the provider reads (`origin`, `hostname`, `pathname`).  The
model splits `scheme://host/path` textually; percent-encoding,
lowercasing and dot-segment removal of the real parser are not modelled. -/
structure ParsedUrl where
  scheme : Str
  host : Str
  pathname : Str
deriving DecidableEq, Repr

/-- Split a string at its first colon. -/
def splitColon : Str → Option (Str × Str)
  | [] => none
  | c :: rest =>
    if c = ':' then some ([], rest)
    else (splitColon rest).map (fun pr => (c :: pr.1, pr.2))

/-- Characters ending the authority component. -/
def hostStop (c : Char) : Bool := c == '/' || c == '?' || c == '#'

/-- Characters ending the path component. -/
def pathStop (c : Char) : Bool := c == '?' || c == '#'

/-- Authority-and-path part of the URL parser, applied to what follows
the first colon: requires `//`, takes the host up to a delimiter, and
the path up to a query/fragment delimiter (`/` when there is no path). -/
def parseAuth (scheme rest : Str) : Option ParsedUrl :=
  match rest with
  | c1 :: c2 :: rest2 =>
    if c1 = '/' ∧ c2 = '/' then
      if (rest2.takeWhile (fun c => !hostStop c)).isEmpty then none
      else
        match rest2.dropWhile (fun c => !hostStop c) with
        | c3 :: after2 =>
          if c3 = '/' then
            some ⟨scheme, rest2.takeWhile (fun c => !hostStop c),
              (c3 :: after2).takeWhile (fun c => !pathStop c)⟩
          else some ⟨scheme, rest2.takeWhile (fun c => !hostStop c), ['/']⟩
        | [] => some ⟨scheme, rest2.takeWhile (fun c => !hostStop c), ['/']⟩
    else none
  | _ => none

/-- Model of `new URL(u)`: returns `none` (the constructor throws) when
there is no `scheme://host` shape. -/
def parseUrl (u : Str) : Option ParsedUrl :=
  match splitColon u with
  | none => none
  | some (scheme, rest) => parseAuth scheme rest

/-- The `hostname` field: the host without any `:port` suffix. -/
def ParsedUrl.hostname (pu : ParsedUrl) : Str :=
  pu.host.takeWhile (fun c => !(c == ':'))

/-- The `origin` field: `scheme://host`. -/
def ParsedUrl.origin (pu : ParsedUrl) : Str :=
  pu.scheme ++ ':' :: '/' :: '/' :: pu.host

/-- The regex of `normalizeUrl`:
`u.pathname.match(/^(\/[^\0x2f]+\/[^\0x2f]+\/pull\/\d+)/)` — two nonempty
slash-free segments, the literal `pull` segment, then at least one digit;
returns the matched lead of the path. -/
def pullSeg : Str := "/pull/".toList

def nonSlash (c : Char) : Bool := !(c == '/')

def prPathMatch (path : Str) : Option Str :=
  match path with
  | [] => none
  | c0 :: rest =>
    if c0 = '/' then
      if (rest.takeWhile nonSlash).isEmpty then none
      else
        match rest.dropWhile nonSlash with
        | [] => none
        | c1 :: rest2 =>
          if c1 = '/' then
            if (rest2.takeWhile nonSlash).isEmpty then none
            else
              if (rest2.dropWhile nonSlash).take 6 = pullSeg then
                if (((rest2.dropWhile nonSlash).drop 6).takeWhile Char.isDigit).isEmpty then
                  none
                else
                  some (('/' :: rest.takeWhile nonSlash) ++
                    ('/' :: rest2.takeWhile nonSlash) ++ pullSeg ++
                    ((rest2.dropWhile nonSlash).drop 6).takeWhile Char.isDigit)
              else none
          else none
    else none

/-- The GitHub host. -/
def ghHost : Str := "github.com".toList

/-- Source `GitHubPRProvider.normalizeUrl`: strip a PR URL to its base
`origin/owner/repo/pull/N` form; return any other input unchanged
(including unparsable URLs — the catch branch). -/
def ghNormalizeUrl (u : Url) : Url :=
  match parseUrl u with
  | none => u
  | some pu =>
    if pu.hostname = ghHost then
      match prPathMatch pu.pathname with
      | some m => pu.origin ++ m
      | none => u
    else u

/-- Scan for a literal `/pull/` occurrence. -/
def hasPullSeg : Str → Bool
  | '/' :: 'p' :: 'u' :: 'l' :: 'l' :: '/' :: _ => true
  | _ :: rest => hasPullSeg rest
  | [] => false

/-- Scan for a `/` followed (not necessarily immediately) by `/pull/`. -/
def ghSlashScan : Str → Bool
  | [] => false
  | c :: rest => (c == '/' && hasPullSeg rest) || ghSlashScan rest

/-- Path part of the match pattern `*://github.com/*/*/pull/*`: the path
decomposes as `/` ++ A ++ `/` ++ B ++ `/pull/` ++ C. -/
def ghPathMatch (path : Str) : Bool :=
  match path with
  | '/' :: rest => ghSlashScan rest
  | _ => false

/-- Host-side semantics of `getTabMatchPattern()`, the match pattern
`*://github.com/*/*/pull/*` applied to a tab URL. -/
def ghTabMatch (u : Url) : Bool :=
  match parseUrl u with
  | none => false
  | some pu =>
    (pu.scheme == "http".toList || pu.scheme == "https".toList) &&
    pu.host == ghHost && ghPathMatch pu.pathname

/-- The GitHub provider as the engine consumes it. -/
def ghProvider : Provider := ⟨some ghNormalizeUrl, ghTabMatch⟩

/-- Response of the `https://api.github.com/user` endpoint. -/
structure UserResp where
  ok : Bool
  status : Nat
  login : Str
deriving DecidableEq, Repr

/-- One item of a search response (`pull_request` presence, `html_url`). -/
structure SearchItem where
  isPullRequest : Bool
  htmlUrl : Option Url
deriving DecidableEq, Repr

/-- Response of a `search/issues` request. -/
structure SearchResp where
  ok : Bool
  items : List SearchItem
deriving DecidableEq, Repr

/-- Network oracle for the GitHub provider: the `/user` outcome and, per
resolved query, the search outcome.  `Except.error` models a thrown
`fetch`; `ok = false` models a non-2xx response. -/
structure GhNet where
  user : Except Str UserResp
  search : Str → Except Str SearchResp

/-- The configuration fields `GitHubPRProvider.fetchUrls` reads.  The
source accepts either a `queries` array or a legacy single `query`; the
model takes the resulting array. -/
structure GhConfig where
  token : Str
  queries : List Str

/-- Source `GitHubPRProvider.getUsername`: propagate a network failure,
throw `GitHub /user <status>` on a non-OK response, else the login. -/
def getUsername (net : GhNet) (config : GhConfig) : Except Str Str :=
  match net.user with
  | .error e => .error e
  | .ok r =>
    if r.ok then .ok r.login
    else .error ("GitHub /user ".toList ++ Nat.toDigits 10 r.status)

/-- Source `query.replace(/@me/g, username)`. -/
def resolveQuery (username : Str) : Str → Str
  | '@' :: 'm' :: 'e' :: rest => username ++ resolveQuery username rest
  | c :: rest => c :: resolveQuery username rest
  | [] => []

/-- JavaScript `Set.add` on an insertion-ordered list. -/
def addUnique (acc : List Url) (u : Url) : List Url :=
  if acc.contains u then acc else acc ++ [u]

/-- One iteration of the query loop of `fetchUrls`: blank queries are
skipped; a thrown fetch or a non-OK response contributes nothing; an OK
response contributes the `html_url` of every pull-request item. -/
def searchStep (net : GhNet) (username : Str) (acc : List Url) (query : Str) : List Url :=
  if (query.dropWhile Char.isWhitespace).isEmpty then acc
  else
    match net.search (resolveQuery username query) with
    | .error _ => acc
    | .ok r =>
      if r.ok then
        ((r.items.filter (fun it => it.isPullRequest && it.htmlUrl.isSome)).filterMap
          (fun it => it.htmlUrl)).foldl addUnique acc
      else acc

/-- Source `GitHubPRProvider.fetchUrls`: empty token short-circuits to an
empty list; a username-lookup failure propagates; per-query failures are
swallowed; results are deduplicated in first-seen order. -/
def ghFetchUrls (net : GhNet) (config : GhConfig) : Except Str (List Url) :=
  if config.token.isEmpty then .ok []
  else
    match getUsername net config with
    | .error e => .error e
    | .ok username => .ok (config.queries.foldl (searchStep net username) [])

/-- C8: with an empty (or absent) token, `fetchUrls` returns the empty
list immediately for every possible network behaviour — no request is
consulted and no error is thrown. -/
theorem ghFetchUrls_no_token (net : GhNet) (config : GhConfig)
    (h : config.token = []) : ghFetchUrls net config = .ok [] := by
  unfold ghFetchUrls
  rw [h]
  simp

/-- C8 witness: empty token against a network where every request fails. -/
theorem ghFetchUrls_no_token_witness :
    ghFetchUrls ⟨.error "down".toList, fun _ => .error "down".toList⟩
      ⟨[], ["is:pr".toList]⟩ = .ok [] :=
  ghFetchUrls_no_token _ _ rfl

/-- C9: `fetchUrls` throws only when the initial username lookup fails —
any error it returns is exactly the `getUsername` error, whatever the
search endpoints do; per-query failures are swallowed. -/
theorem ghFetchUrls_error_only_username (net : GhNet) (config : GhConfig) (e : Str)
    (h : ghFetchUrls net config = .error e) :
    config.token ≠ [] ∧ getUsername net config = .error e := by
  unfold ghFetchUrls at h
  by_cases ht : config.token.isEmpty
  · rw [if_pos ht] at h
    exact absurd h (by simp)
  · rw [if_neg ht] at h
    constructor
    · intro hnil
      exact ht (by rw [hnil]; rfl)
    · cases hu : getUsername net config with
      | error e' =>
        rw [hu] at h
        injection h with h1
        rw [h1]
      | ok s =>
        rw [hu] at h
        exact absurd h (by simp)

/-- C9 witness: a failing `/user` request with working search endpoints
propagates exactly the username error. -/
theorem ghFetchUrls_error_only_username_witness :
    ghFetchUrls ⟨.error "auth".toList, fun _ => .ok ⟨true, []⟩⟩
        ⟨['t'], ["q".toList]⟩ = .error "auth".toList ∧
    (⟨['t'], ["q".toList]⟩ : GhConfig).token ≠ [] ∧
    getUsername ⟨.error "auth".toList, fun _ => .ok ⟨true, []⟩⟩
        ⟨['t'], ["q".toList]⟩ = .error "auth".toList := by
  refine ⟨rfl, ?_⟩
  exact ghFetchUrls_error_only_username
    ⟨.error "auth".toList, fun _ => .ok ⟨true, []⟩⟩ ⟨['t'], ["q".toList]⟩
    "auth".toList rfl

lemma takeWhile_append_stop (p : Char → Bool) (l : Str) (c : Char) (r : Str)
    (hall : ∀ x ∈ l, p x = true) (hc : p c = false) :
    (l ++ c :: r).takeWhile p = l := by
  induction l with
  | nil => simp [List.takeWhile_cons, hc]
  | cons a as ih =>
    have ha : p a = true := hall a (by simp)
    simp only [List.cons_append, List.takeWhile_cons, ha, if_true]
    rw [ih (fun x hx => hall x (by simp [hx]))]

lemma dropWhile_append_stop (p : Char → Bool) (l : Str) (c : Char) (r : Str)
    (hall : ∀ x ∈ l, p x = true) (hc : p c = false) :
    (l ++ c :: r).dropWhile p = c :: r := by
  induction l with
  | nil => simp [List.dropWhile_cons, hc]
  | cons a as ih =>
    have ha : p a = true := hall a (by simp)
    simp only [List.cons_append, List.dropWhile_cons, ha, if_true]
    exact ih (fun x hx => hall x (by simp [hx]))

lemma splitColon_eq_some : ∀ (u s r : Str), splitColon u = some (s, r) →
    u = s ++ ':' :: r ∧ ':' ∉ s
  | [], s, r, h => by simp [splitColon] at h
  | c :: rest, s, r, h => by
    unfold splitColon at h
    split_ifs at h with hc
    · injection h with h'
      injection h' with h1 h2
      subst hc; subst h1; subst h2
      exact ⟨rfl, by simp⟩
    · cases hsc : splitColon rest with
      | none => rw [hsc] at h; simp at h
      | some pr =>
        rw [hsc] at h
        simp only [Option.map_some'] at h
        injection h with h'
        injection h' with h1 h2
        obtain ⟨hu, hnotin⟩ := splitColon_eq_some rest pr.1 pr.2 (by rw [hsc])
        subst h1; subst h2
        constructor
        · rw [List.cons_append, ← hu]
        · simp only [List.mem_cons, not_or]
          exact ⟨fun e => hc e.symm, hnotin⟩

lemma splitColon_append (s r : Str) (h : ':' ∉ s) :
    splitColon (s ++ ':' :: r) = some (s, r) := by
  induction s with
  | nil => simp [splitColon]
  | cons c cs ih =>
    have hc : ¬ c = ':' := fun e => h (by rw [e]; simp)
    simp only [List.cons_append, splitColon, if_neg hc, List.append_eq,
      ih (fun hm => h (by simp [hm])), Option.map_some']

lemma parseUrl_spec (u : Str) (pu : ParsedUrl) (h : parseUrl u = some pu) :
    ':' ∉ pu.scheme ∧
    pu.host ≠ [] ∧ (∀ c ∈ pu.host, hostStop c = false) ∧
    (∃ tl, pu.pathname = '/' :: tl) ∧ (∀ c ∈ pu.pathname, pathStop c = false) := by
  unfold parseUrl at h
  cases hsc : splitColon u with
  | none => rw [hsc] at h; exact absurd h (by simp)
  | some pr =>
    rw [hsc] at h
    obtain ⟨hu, hscheme⟩ := splitColon_eq_some u pr.1 pr.2 (by rw [hsc])
    have h' : parseAuth pr.1 pr.2 = some pu := h
    clear h
    rcases hr : pr.2 with _ | ⟨c1, _ | ⟨c2, rest2⟩⟩ <;> rw [hr] at h' <;>
      simp only [parseAuth] at h'
    · exact absurd h' (by simp)
    · exact absurd h' (by simp)
    · split_ifs at h' with hslash hempty
      split at h'
      next c3 after2 hdw =>
        by_cases hc3 : c3 = '/'
        · rw [if_pos hc3] at h'
          injection h' with h''
          subst h''
          subst hc3
          refine ⟨hscheme, ?_, ?_, ?_, ?_⟩
          · intro he; exact hempty (List.isEmpty_iff.mpr he)
          · intro c hcmem
            have := List.mem_takeWhile_imp hcmem
            simpa using this
          · refine ⟨after2.takeWhile (fun c => !pathStop c), ?_⟩
            simp [List.takeWhile_cons, pathStop]
          · intro c hcmem
            have := List.mem_takeWhile_imp hcmem
            simpa using this
        · rw [if_neg hc3] at h'
          injection h' with h''
          subst h''
          refine ⟨hscheme, ?_, ?_, ⟨[], rfl⟩, ?_⟩
          · intro he; exact hempty (List.isEmpty_iff.mpr he)
          · intro c hcmem
            have := List.mem_takeWhile_imp hcmem
            simpa using this
          · intro c hcmem
            simp only [List.mem_singleton] at hcmem
            subst hcmem
            rfl
      next hdw =>
        injection h' with h''
        subst h''
        refine ⟨hscheme, ?_, ?_, ⟨[], rfl⟩, ?_⟩
        · intro he; exact hempty (List.isEmpty_iff.mpr he)
        · intro c hcmem
          have := List.mem_takeWhile_imp hcmem
          simpa using this
        · intro c hcmem
          simp only [List.mem_singleton] at hcmem
          subst hcmem
          rfl

lemma parseUrl_construct (scheme host path : Str)
    (hs : ':' ∉ scheme) (hh : host ≠ []) (hhs : ∀ c ∈ host, hostStop c = false)
    (hp : ∃ tl, path = '/' :: tl) (hps : ∀ c ∈ path, pathStop c = false) :
    parseUrl (scheme ++ ':' :: '/' :: '/' :: (host ++ path)) = some ⟨scheme, host, path⟩ := by
  obtain ⟨tl, rfl⟩ := hp
  have h1 : (host ++ '/' :: tl).takeWhile (fun c => !hostStop c) = host :=
    takeWhile_append_stop _ host '/' tl
      (fun x hx => by simp [hhs x hx]) (by simp [hostStop])
  have h2 : (host ++ '/' :: tl).dropWhile (fun c => !hostStop c) = '/' :: tl :=
    dropWhile_append_stop _ host '/' tl
      (fun x hx => by simp [hhs x hx]) (by simp [hostStop])
  have h3 : ('/' :: tl).takeWhile (fun c => !pathStop c) = '/' :: tl := by
    rw [List.takeWhile_eq_self_iff]
    intro x hx
    simp [hps x hx]
  have hne : host.isEmpty = false := by
    rw [List.isEmpty_eq_false]; exact hh
  unfold parseUrl
  rw [splitColon_append scheme ('/' :: '/' :: (host ++ '/' :: tl)) hs]
  show parseAuth scheme ('/' :: '/' :: (host ++ '/' :: tl)) = some ⟨scheme, host, '/' :: tl⟩
  simp [parseAuth, h1, h2, h3, hne]

lemma pullSeg_cons : pullSeg = '/' :: 'p' :: 'u' :: 'l' :: 'l' :: '/' :: [] := by decide

lemma prPathMatch_spec (path m : Str) (h : prPathMatch path = some m) :
    ∃ s1 s2 ds rest,
      m = ('/' :: s1) ++ ('/' :: s2) ++ pullSeg ++ ds ∧
      path = m ++ rest ∧
      s1 ≠ [] ∧ s2 ≠ [] ∧ ds ≠ [] ∧
      (∀ c ∈ s1, nonSlash c = true) ∧ (∀ c ∈ s2, nonSlash c = true) ∧
      (∀ c ∈ ds, c.isDigit = true) := by
  cases path with
  | nil => exact absurd h (by simp [prPathMatch])
  | cons c0 rest =>
    simp only [prPathMatch] at h
    split_ifs at h with hc0 he1
    split at h
    next hdw => exact absurd h (by simp)
    next c1 rest2 hdw =>
      split_ifs at h with hc1 he2 htake hde
      injection h with h'
      subst hc0
      subst hc1
      refine ⟨rest.takeWhile nonSlash, rest2.takeWhile nonSlash,
        ((rest2.dropWhile nonSlash).drop 6).takeWhile Char.isDigit,
        ((rest2.dropWhile nonSlash).drop 6).dropWhile Char.isDigit,
        h'.symm, ?_, ?_, ?_, ?_, ?_, ?_, ?_⟩
      · rw [← h']
        have e1 : rest = rest.takeWhile nonSlash ++ rest.dropWhile nonSlash :=
          (List.takeWhile_append_dropWhile _ _).symm
        have e2 : rest2 = rest2.takeWhile nonSlash ++ rest2.dropWhile nonSlash :=
          (List.takeWhile_append_dropWhile _ _).symm
        have e4 : (rest2.dropWhile nonSlash).drop 6 =
            ((rest2.dropWhile nonSlash).drop 6).takeWhile Char.isDigit ++
            ((rest2.dropWhile nonSlash).drop 6).dropWhile Char.isDigit :=
          (List.takeWhile_append_dropWhile _ _).symm
        have e5 : rest2.dropWhile nonSlash =
            pullSeg ++ (((rest2.dropWhile nonSlash).drop 6).takeWhile Char.isDigit ++
              ((rest2.dropWhile nonSlash).drop 6).dropWhile Char.isDigit) := by
          conv_lhs => rw [← List.take_append_drop 6 (rest2.dropWhile nonSlash)]
          rw [htake]
          congr 1
        conv_lhs => rw [e1, hdw, e2, e5]
        simp [List.append_assoc]
      · intro hnil
        rw [hnil] at he1
        exact he1 rfl
      · intro hnil
        rw [hnil] at he2
        exact he2 rfl
      · intro hnil
        rw [hnil] at hde
        exact hde rfl
      · intro c hc
        exact List.mem_takeWhile_imp hc
      · intro c hc
        exact List.mem_takeWhile_imp hc
      · intro c hc
        exact List.mem_takeWhile_imp hc

lemma prPathMatch_construct (s1 s2 ds : Str)
    (h1 : s1 ≠ []) (hn1 : ∀ c ∈ s1, nonSlash c = true)
    (h2 : s2 ≠ []) (hn2 : ∀ c ∈ s2, nonSlash c = true)
    (hd : ds ≠ []) (hdd : ∀ c ∈ ds, c.isDigit = true) :
    prPathMatch (('/' :: s1) ++ ('/' :: s2) ++ pullSeg ++ ds) =
      some (('/' :: s1) ++ ('/' :: s2) ++ pullSeg ++ ds) := by
  have hpd : pullSeg ++ ds = '/' :: ('p' :: 'u' :: 'l' :: 'l' :: '/' :: ds) := by
    rw [pullSeg_cons]; rfl
  have ht1 : (s1 ++ '/' :: (s2 ++ ('/' :: 'p' :: 'u' :: 'l' :: 'l' :: '/' :: ds))).takeWhile
      nonSlash = s1 :=
    takeWhile_append_stop _ s1 '/' _ hn1 (by decide)
  have hd1 : (s1 ++ '/' :: (s2 ++ ('/' :: 'p' :: 'u' :: 'l' :: 'l' :: '/' :: ds))).dropWhile
      nonSlash = '/' :: (s2 ++ ('/' :: 'p' :: 'u' :: 'l' :: 'l' :: '/' :: ds)) :=
    dropWhile_append_stop _ s1 '/' _ hn1 (by decide)
  have ht2 : (s2 ++ ('/' :: 'p' :: 'u' :: 'l' :: 'l' :: '/' :: ds)).takeWhile nonSlash = s2 :=
    takeWhile_append_stop _ s2 '/' _ hn2 (by decide)
  have hd2 : (s2 ++ ('/' :: 'p' :: 'u' :: 'l' :: 'l' :: '/' :: ds)).dropWhile nonSlash =
      '/' :: 'p' :: 'u' :: 'l' :: 'l' :: '/' :: ds :=
    dropWhile_append_stop _ s2 '/' _ hn2 (by decide)
  have htake : ('/' :: 'p' :: 'u' :: 'l' :: 'l' :: '/' :: ds).take 6 = pullSeg := by
    rw [pullSeg_cons]; rfl
  have hdrop : ('/' :: 'p' :: 'u' :: 'l' :: 'l' :: '/' :: ds).drop 6 = ds := rfl
  have htd : ds.takeWhile Char.isDigit = ds := by
    rw [List.takeWhile_eq_self_iff]
    intro x hx
    simp [hdd x hx]
  have hde : ds.isEmpty = false := by
    rw [List.isEmpty_eq_false]; exact hd
  have hse1 : s1.isEmpty = false := by
    rw [List.isEmpty_eq_false]; exact h1
  have hse2 : s2.isEmpty = false := by
    rw [List.isEmpty_eq_false]; exact h2
  have hshape : ('/' :: s1) ++ ('/' :: s2) ++ pullSeg ++ ds =
      '/' :: (s1 ++ '/' :: (s2 ++ ('/' :: 'p' :: 'u' :: 'l' :: 'l' :: '/' :: ds))) := by
    rw [pullSeg_cons]
    simp [List.append_assoc]
  rw [hshape]
  simp only [prPathMatch, if_pos rfl, ht1, hd1, ht2, hd2, htake, hdrop, htd, hde, hse1, hse2,
    Bool.false_eq_true, if_false, if_pos rfl, if_true]
  rw [hshape]

lemma ghNormalizeUrl_parse_some (u : Url) (pu : ParsedUrl) (hp : parseUrl u = some pu) :
    ghNormalizeUrl u =
      (if pu.hostname = ghHost then
        match prPathMatch pu.pathname with
        | some m => pu.origin ++ m
        | none => u
      else u) := by
  unfold ghNormalizeUrl
  rw [hp]

/-- C10: the GitHub provider's URL normalizer is idempotent — applying it
to its own output returns that output unchanged, for every input string,
including unparsable URLs and non-PR URLs (returned unchanged). -/
theorem ghNormalizeUrl_idempotent (u : Url) :
    ghNormalizeUrl (ghNormalizeUrl u) = ghNormalizeUrl u := by
  cases hp : parseUrl u with
  | none =>
    have he : ghNormalizeUrl u = u := by
      unfold ghNormalizeUrl; rw [hp]
    rw [he]; exact he
  | some pu =>
    by_cases hh : pu.hostname = ghHost
    · cases hm : prPathMatch pu.pathname with
      | none =>
        have he : ghNormalizeUrl u = u := by
          rw [ghNormalizeUrl_parse_some u pu hp, if_pos hh, hm]
        rw [he]; exact he
      | some m =>
        have h1 : ghNormalizeUrl u = pu.origin ++ m := by
          rw [ghNormalizeUrl_parse_some u pu hp, if_pos hh, hm]
        rw [h1]
        obtain ⟨hsch, hhost, hhostc, ⟨tl, hpath⟩, hpathc⟩ := parseUrl_spec u pu hp
        obtain ⟨s1, s2, ds, tailr, hm_eq, hpath_eq, hs1, hs2, hds, hns1, hns2, hdds⟩ :=
          prPathMatch_spec pu.pathname m hm
        have hmc : ∀ c ∈ m, pathStop c = false := fun c hc =>
          hpathc c (by rw [hpath_eq]; exact List.mem_append_left _ hc)
        have hm0 : ∃ tl', m = '/' :: tl' := by
          refine ⟨s1 ++ ('/' :: s2) ++ pullSeg ++ ds, ?_⟩
          rw [hm_eq]
          simp [List.append_assoc]
        have hassoc : pu.origin ++ m = pu.scheme ++ ':' :: '/' :: '/' :: (pu.host ++ m) := by
          unfold ParsedUrl.origin
          simp [List.append_assoc]
        have hparse2 : parseUrl (pu.origin ++ m) = some ⟨pu.scheme, pu.host, m⟩ := by
          rw [hassoc]
          exact parseUrl_construct pu.scheme pu.host m hsch hhost hhostc hm0 hmc
        have hhost2 : (⟨pu.scheme, pu.host, m⟩ : ParsedUrl).hostname = ghHost := by
          unfold ParsedUrl.hostname at hh ⊢
          exact hh
        have hmatch2 : prPathMatch m = some m := by
          rw [hm_eq]
          exact prPathMatch_construct s1 s2 ds hs1 hns1 hs2 hns2 hds hdds
        rw [ghNormalizeUrl_parse_some (pu.origin ++ m) ⟨pu.scheme, pu.host, m⟩ hparse2,
          if_pos hhost2, hmatch2]
        rfl
    · have he : ghNormalizeUrl u = u := by
        rw [ghNormalizeUrl_parse_some u pu hp, if_neg hh]
      rw [he]; exact he

lemma listGet_listSet_self [DecidableEq α] (k : α) (v : β) (m : List (α × β)) :
    listGet k (listSet k v m) = some v := by
  induction m with
  | nil => simp [listSet, listGet]
  | cons e rest ih =>
    obtain ⟨k', v'⟩ := e
    by_cases hk : k' = k
    · simp [listSet, listGet, hk]
    · simp [listSet, listGet, hk, ih]

lemma listGet_listSet_ne [DecidableEq α] (k k' : α) (v : β) (m : List (α × β))
    (h : k' ≠ k) : listGet k' (listSet k v m) = listGet k' m := by
  induction m with
  | nil => simp [listSet, listGet, Ne.symm h]
  | cons e rest ih =>
    obtain ⟨k'', v''⟩ := e
    by_cases hk : k'' = k
    · subst hk
      simp [listSet, listGet, Ne.symm h]
    · simp [listSet, listGet, hk, ih]

lemma listGet_mem [DecidableEq α] (k : α) (v : β) (m : List (α × β))
    (h : listGet k m = some v) : (k, v) ∈ m := by
  induction m with
  | nil => simp [listGet] at h
  | cons e rest ih =>
    obtain ⟨k', v'⟩ := e
    by_cases hk : k' = k
    · rw [listGet, if_pos hk] at h
      injection h with h'
      subst hk; subst h'
      simp
    · rw [listGet, if_neg hk] at h
      exact List.mem_cons_of_mem _ (ih h)

lemma listSet_mem [DecidableEq α] {k : α} {v : β} {m : List (α × β)} {e : α × β}
    (h : e ∈ listSet k v m) : e = (k, v) ∨ e ∈ m := by
  induction m with
  | nil => simpa [listSet] using h
  | cons e' rest ih =>
    obtain ⟨k', v'⟩ := e'
    by_cases hk : k' = k
    · rw [listSet, if_pos hk] at h
      rcases List.mem_cons.mp h with h1 | h2
      · exact Or.inl h1
      · exact Or.inr (List.mem_cons_of_mem _ h2)
    · rw [listSet, if_neg hk] at h
      rcases List.mem_cons.mp h with h1 | h2
      · exact Or.inr (by rw [h1]; simp)
      · rcases ih h2 with h3 | h4
        · exact Or.inl h3
        · exact Or.inr (List.mem_cons_of_mem _ h4)

lemma listGet_isSome_listSet [DecidableEq α] (k k' : α) (v : β) (m : List (α × β))
    (h : (listGet k m).isSome = true) : (listGet k (listSet k' v m)).isSome = true := by
  by_cases hk : k = k'
  · subst hk
    rw [listGet_listSet_self]
    rfl
  · rw [listGet_listSet_ne k' k v m hk]
    exact h

lemma revFold_get_not_mem (p : Provider) (urls : List Url) (acc : List (Url × Url)) (n : Url)
    (h : ∀ v ∈ urls, normOf p v ≠ n) :
    listGet n (urls.foldl (fun m u => listSet (normOf p u) u m) acc) = listGet n acc := by
  induction urls generalizing acc with
  | nil => rfl
  | cons u rest ih =>
    rw [List.foldl_cons, ih _ (fun v hv => h v (by simp [hv]))]
    exact listGet_listSet_ne _ _ _ _ (fun e => h u (by simp) e.symm)

lemma revFold_get_last (p : Provider) (l1 l2 : List Url) (u : Url) (acc : List (Url × Url))
    (h : ∀ x ∈ l2, normOf p x ≠ normOf p u) :
    listGet (normOf p u) ((l1 ++ u :: l2).foldl (fun m w => listSet (normOf p w) w m) acc) =
      some u := by
  rw [List.foldl_append, List.foldl_cons, revFold_get_not_mem p l2 _ _ h]
  exact listGet_listSet_self _ _ _

lemma revFold_get_some (p : Provider) (urls : List Url) (acc : List (Url × Url)) (n v : Url)
    (h : listGet n (urls.foldl (fun m u => listSet (normOf p u) u m) acc) = some v) :
    (normOf p v = n ∧ ∃ l1 l2, urls = l1 ++ v :: l2 ∧ ∀ x ∈ l2, normOf p x ≠ n) ∨
    ((∀ x ∈ urls, normOf p x ≠ n) ∧ listGet n acc = some v) := by
  induction urls generalizing acc with
  | nil => exact Or.inr ⟨by simp, h⟩
  | cons u rest ih =>
    rw [List.foldl_cons] at h
    rcases ih _ h with ⟨hnv, l1, l2, heq, hlast⟩ | ⟨hall, hacc⟩
    · exact Or.inl ⟨hnv, u :: l1, l2, by rw [heq, List.cons_append], hlast⟩
    · by_cases hn : normOf p u = n
      · rw [← hn, listGet_listSet_self] at hacc
        injection hacc with hv
        subst hv
        exact Or.inl ⟨hn, [], rest, rfl, hall⟩
      · rw [listGet_listSet_ne _ _ _ _ (fun e => hn e.symm)] at hacc
        refine Or.inr ⟨?_, hacc⟩
        intro x hx
        rcases List.mem_cons.mp hx with h1 | h2
        · rw [h1]; exact hn
        · exact hall x h2

/-- Key under which `tabsByExactUrls` files a candidate tab: the original
desired URL the tab's normalized URL maps back to, when the normalized
URL is expected at all. -/
def tabKey (p : Provider) (rev : List (Url × Url)) (expected : List Url) (t : Tab) :
    Option Url :=
  match t.url with
  | none => none
  | some w => if expected.contains (normOf p w) then listGet (normOf p w) rev else none

lemma tabStep_eq (p : Provider) (rev : List (Url × Url)) (expected : List Url)
    (m : List (Url × Tab)) (t : Tab) :
    tabStep p rev expected m t =
      match tabKey p rev expected t with
      | some k => listSet k t m
      | none => m := by
  cases hu : t.url with
  | none => simp [tabStep, tabKey, hu]
  | some w =>
    by_cases hc : normOf p w ∈ expected
    · cases hg : listGet (normOf p w) rev with
      | none => simp [tabStep, tabKey, hu, hc, hg]
      | some orig => simp [tabStep, tabKey, hu, hc, hg]
    · simp [tabStep, tabKey, hu, hc]

lemma mapFold_get_not_mem (p : Provider) (rev : List (Url × Url)) (expected : List Url)
    (cands : List Tab) (acc : List (Url × Tab)) (k : Url)
    (h : ∀ t ∈ cands, tabKey p rev expected t ≠ some k) :
    listGet k (cands.foldl (tabStep p rev expected) acc) = listGet k acc := by
  induction cands generalizing acc with
  | nil => rfl
  | cons t rest ih =>
    rw [List.foldl_cons, ih _ (fun t' ht' => h t' (by simp [ht']))]
    rw [tabStep_eq]
    cases hk : tabKey p rev expected t with
    | none => rfl
    | some k' =>
      have hne : k' ≠ k := fun e => h t (by simp) (by rw [hk, e])
      exact listGet_listSet_ne k' k t acc (fun e => hne e.symm)

lemma mapFold_get_last (p : Provider) (rev : List (Url × Url)) (expected : List Url)
    (c1 c2 : List Tab) (t : Tab) (acc : List (Url × Tab)) (k : Url)
    (hk : tabKey p rev expected t = some k)
    (h2 : ∀ t' ∈ c2, tabKey p rev expected t' ≠ some k) :
    listGet k ((c1 ++ t :: c2).foldl (tabStep p rev expected) acc) = some t := by
  rw [List.foldl_append, List.foldl_cons, mapFold_get_not_mem p rev expected c2 _ k h2,
    tabStep_eq, hk]
  exact listGet_listSet_self _ _ _

lemma mapFold_entry_mem (p : Provider) (rev : List (Url × Url)) (expected : List Url)
    (cands : List Tab) (acc : List (Url × Tab)) (e : Url × Tab)
    (h : e ∈ cands.foldl (tabStep p rev expected) acc) :
    (e.2 ∈ cands ∧ tabKey p rev expected e.2 = some e.1) ∨ e ∈ acc := by
  induction cands generalizing acc with
  | nil => exact Or.inr h
  | cons t rest ih =>
    rw [List.foldl_cons] at h
    rcases ih _ h with ⟨hmem, hkey⟩ | hacc
    · exact Or.inl ⟨by simp [hmem], hkey⟩
    · rw [tabStep_eq] at hacc
      cases hk : tabKey p rev expected t with
      | none =>
        rw [hk] at hacc
        exact Or.inr hacc
      | some k' =>
        rw [hk] at hacc
        rcases listSet_mem hacc with he | hm
        · subst he
          exact Or.inl ⟨by simp, hk⟩
        · exact Or.inr hm

lemma mapFold_get_isSome (p : Provider) (rev : List (Url × Url)) (expected : List Url)
    (cands : List Tab) (acc : List (Url × Tab)) (k : Url)
    (h : (listGet k acc).isSome = true) :
    (listGet k (cands.foldl (tabStep p rev expected) acc)).isSome = true := by
  induction cands generalizing acc with
  | nil => exact h
  | cons t rest ih =>
    rw [List.foldl_cons]
    refine ih _ ?_
    rw [tabStep_eq]
    cases tabKey p rev expected t with
    | none => exact h
    | some k' => exact listGet_isSome_listSet k k' t acc h

lemma mapFold_get_exists (p : Provider) (rev : List (Url × Url)) (expected : List Url)
    (c1 c2 : List Tab) (t : Tab) (acc : List (Url × Tab)) (k : Url)
    (hk : tabKey p rev expected t = some k) :
    (listGet k ((c1 ++ t :: c2).foldl (tabStep p rev expected) acc)).isSome = true := by
  rw [List.foldl_append, List.foldl_cons]
  refine mapFold_get_isSome p rev expected c2 _ k ?_
  rw [tabStep_eq, hk, listGet_listSet_self]
  rfl

lemma mapFold_get_some_split (p : Provider) (rev : List (Url × Url)) (expected : List Url)
    (cands : List Tab) (acc : List (Url × Tab)) (k : Url) (t : Tab)
    (h : listGet k (cands.foldl (tabStep p rev expected) acc) = some t) :
    (∃ c1 c2, cands = c1 ++ t :: c2 ∧ tabKey p rev expected t = some k ∧
      ∀ t' ∈ c2, tabKey p rev expected t' ≠ some k) ∨
    ((∀ t' ∈ cands, tabKey p rev expected t' ≠ some k) ∧ listGet k acc = some t) := by
  induction cands generalizing acc with
  | nil => exact Or.inr ⟨by simp, h⟩
  | cons t' rest ih =>
    rw [List.foldl_cons] at h
    rcases ih _ h with ⟨c1, c2, heq, hkey, hlast⟩ | ⟨hall, hacc⟩
    · exact Or.inl ⟨t' :: c1, c2, by rw [heq, List.cons_append], hkey, hlast⟩
    · rw [tabStep_eq] at hacc
      cases hk : tabKey p rev expected t' with
      | none =>
        rw [hk] at hacc
        refine Or.inr ⟨?_, hacc⟩
        intro x hx
        rcases List.mem_cons.mp hx with h1 | h2
        · rw [h1, hk]; simp
        · exact hall x h2
      | some k' =>
        rw [hk] at hacc
        by_cases hkk : k' = k
        · subst hkk
          rw [listGet_listSet_self] at hacc
          injection hacc with hv
          subst hv
          exact Or.inl ⟨[], rest, rfl, hk, hall⟩
        · rw [listGet_listSet_ne _ _ _ _ (fun e => hkk e.symm)] at hacc
          refine Or.inr ⟨?_, hacc⟩
          intro x hx
          rcases List.mem_cons.mp hx with h1 | h2
          · rw [h1, hk]
            intro hc
            injection hc with hc'
            exact hkk hc'
          · exact hall x h2

lemma nodup_middle_inj {α : Type} : ∀ (a c b d : List α) (x : α),
    a ++ x :: b = c ++ x :: d → (a ++ x :: b).Nodup → b = d
  | [], [], b, d, x, h, _ => by
    injection h
  | [], y :: c', b, d, x, h, hnd => by
    injection h with h1 h2
    subst h2
    exfalso
    exact (List.nodup_cons.mp hnd).1 (by simp)
  | y :: a', [], b, d, x, h, hnd => by
    injection h with h1 h2
    subst h1
    exfalso
    exact (List.nodup_cons.mp hnd).1 (by simp)
  | y :: a', z :: c', b, d, x, h, hnd => by
    injection h with h1 h2
    exact nodup_middle_inj a' c' b d x h2 (List.nodup_cons.mp hnd).2

/-- Concrete PR URL with a sub-path, used in the collision examples. -/
def exUrlFiles : Url := "https://github.com/a/b/pull/1/files".toList

/-- The base form of the same PR. -/
def exUrlBase : Url := "https://github.com/a/b/pull/1".toList

/-- A tab already open at the base PR URL. -/
def exTab : Tab := ⟨1, some exUrlBase, none⟩

/-- A browser state holding only `exTab`. -/
def exState : BrowserState := ⟨[exTab], [], 2, 1⟩

/-- C2 counterexample: with the desired sequence `[exUrlFiles, exUrlBase]`
(whose two URLs normalize identically), the candidate tab is mapped to
the second (last-seen) URL and the first-seen URL gets no entry — the
opposite of the claimed first-seen-wins behaviour. -/
theorem tabsByExactUrls_first_seen_loses :
    normOf ghProvider exUrlFiles = normOf ghProvider exUrlBase ∧
    exUrlFiles ≠ exUrlBase ∧
    listGet exUrlFiles (tabsByExactUrls ghProvider [exUrlFiles, exUrlBase] exState) = none ∧
    listGet exUrlBase (tabsByExactUrls ghProvider [exUrlFiles, exUrlBase] exState) =
      some exTab := by decide

lemma tabKey_some_url (p : Provider) (rev : List (Url × Url)) (expected : List Url)
    (t : Tab) (w : Url) (hw : t.url = some w) :
    tabKey p rev expected t =
      (if expected.contains (normOf p w) = true then listGet (normOf p w) rev else none) := by
  unfold tabKey
  rw [hw]

/-- C2 amended: on a collision of normalized forms, the reverse map keeps
the last-seen original URL, so a candidate tab whose URL normalizes to
the shared form is mapped under the later URL `u2`; the earlier URL `u1`
never appears as a key of the matcher's result. -/
theorem tabsByExactUrls_last_seen_wins
    (p : Provider) (st : BrowserState) (l1 l2 l3 : List Url) (u1 u2 : Url)
    (hcol : normOf p u1 = normOf p u2)
    (hne : u1 ≠ u2)
    (hlast : ∀ x ∈ l3, normOf p x ≠ normOf p u2) :
    listGet u1 (tabsByExactUrls p (l1 ++ u1 :: (l2 ++ u2 :: l3)) st) = none ∧
    (∀ t ∈ tabsQueryPattern p st, ∀ w, t.url = some w → normOf p w = normOf p u2 →
      (listGet u2 (tabsByExactUrls p (l1 ++ u1 :: (l2 ++ u2 :: l3)) st)).isSome = true) := by
  have hurls : l1 ++ u1 :: (l2 ++ u2 :: l3) = (l1 ++ u1 :: l2) ++ u2 :: l3 := by
    simp
  have hrev2 : listGet (normOf p u2) (buildRev p (l1 ++ u1 :: (l2 ++ u2 :: l3))) = some u2 := by
    unfold buildRev
    rw [hurls]
    exact revFold_get_last p (l1 ++ u1 :: l2) l3 u2 [] hlast
  constructor
  · cases hu1 : listGet u1 (tabsByExactUrls p (l1 ++ u1 :: (l2 ++ u2 :: l3)) st) with
    | none => rfl
    | some t =>
      exfalso
      unfold tabsByExactUrls at hu1
      rcases mapFold_get_some_split p _ _ _ _ _ _ hu1 with
        ⟨c1, c2, hc, hkey, hl⟩ | ⟨hall, hacc⟩
      · cases hw : t.url with
        | none =>
          unfold tabKey at hkey
          rw [hw] at hkey
          exact absurd hkey (by simp)
        | some w =>
          rw [tabKey_some_url p _ _ t w hw] at hkey
          split_ifs at hkey with hcin
          unfold buildRev at hkey
          rcases revFold_get_some p _ [] _ _ hkey with
            ⟨hn1, d1, d2, hdec, hd2⟩ | ⟨hnone, hacc2⟩
          · have hnw : normOf p w = normOf p u2 := by rw [← hn1, hcol]
            rw [hnw] at hkey
            have hkey2 : listGet (normOf p u2)
                (buildRev p (l1 ++ u1 :: (l2 ++ u2 :: l3))) = some u1 := hkey
            rw [hrev2] at hkey2
            injection hkey2 with he
            exact hne he.symm
          · exact absurd hacc2 (by simp [listGet])
      · exact absurd hacc (by simp [listGet])
  · intro t ht w hw hnorm
    unfold tabsByExactUrls
    obtain ⟨c1, c2, hc⟩ := List.append_of_mem ht
    rw [hc]
    refine mapFold_get_exists p _ _ c1 c2 t [] u2 ?_
    rw [tabKey_some_url p _ _ t w hw, hnorm]
    have hin : normOf p u2 ∈ normalizedExpected p (l1 ++ u1 :: (l2 ++ u2 :: l3)) := by
      unfold normalizedExpected
      exact List.mem_map_of_mem _ (by simp)
    rw [if_pos (List.elem_eq_true_of_mem hin)]
    exact hrev2

/-- C2 amended witness: the last-seen rule applied to the concrete
collision `[exUrlFiles, exUrlBase]` with the open tab `exTab`. -/
theorem tabsByExactUrls_last_seen_wins_witness :
    normOf ghProvider exUrlFiles = normOf ghProvider exUrlBase ∧
    exUrlFiles ≠ exUrlBase ∧
    (listGet exUrlFiles (tabsByExactUrls ghProvider
        ([] ++ exUrlFiles :: ([] ++ exUrlBase :: [])) exState) = none ∧
     (∀ t ∈ tabsQueryPattern ghProvider exState, ∀ w, t.url = some w →
        normOf ghProvider w = normOf ghProvider exUrlBase →
        (listGet exUrlBase (tabsByExactUrls ghProvider
          ([] ++ exUrlFiles :: ([] ++ exUrlBase :: [])) exState)).isSome = true)) :=
  ⟨by decide, by decide,
    tabsByExactUrls_last_seen_wins ghProvider exState [] [] [] exUrlFiles exUrlBase
      (by decide) (by decide) (by decide)⟩

lemma syncGroup_eq_run (p : Provider) (urls : List Url) (cfg : SyncConfig)
    (w : Nat) (st : BrowserState) (hen : cfg.enabled = true)
    (hsf : safeguardHit urls (findOrCreateGroup w cfg.groupTitle cfg.groupColor st).1
        (findOrCreateGroup w cfg.groupTitle cfg.groupColor st).2 = false) :
    syncGroup (some p) (.ok urls) cfg w st =
      syncCore p urls cfg w (findOrCreateGroup w cfg.groupTitle cfg.groupColor st).1
        (findOrCreateGroup w cfg.groupTitle cfg.groupColor st).2 := by
  simp [syncGroup, hen, hsf]

lemma syncGroup_ok_enabled_safeguard (p : Provider) (urls : List Url) (cfg : SyncConfig)
    (w : Nat) (st : BrowserState)
    (hout : (syncGroup (some p) (.ok urls) cfg w st).log.outcome = .ok) :
    cfg.enabled = true ∧
    safeguardHit urls (findOrCreateGroup w cfg.groupTitle cfg.groupColor st).1
      (findOrCreateGroup w cfg.groupTitle cfg.groupColor st).2 = false := by
  by_cases hen : cfg.enabled = true
  · by_cases hsf : safeguardHit urls (findOrCreateGroup w cfg.groupTitle cfg.groupColor st).1
        (findOrCreateGroup w cfg.groupTitle cfg.groupColor st).2 = true
    · exfalso
      have habort : (syncGroup (some p) (.ok urls) cfg w st).log.outcome = .emptyAborted := by
        simp [syncGroup, hen, hsf, emptyLog]
      rw [habort] at hout
      exact absurd hout (by simp)
    · exact ⟨hen, by simpa using hsf⟩
  · exfalso
    have hdis : (syncGroup (some p) (.ok urls) cfg w st).log.outcome = .disabled := by
      simp [syncGroup, hen, emptyLog]
    rw [hdis] at hout
    exact absurd hout (by simp)

/-- Default engine configuration used by the concrete examples. -/
def exCfg : SyncConfig := ⟨true, ['G'], ['b'], true⟩

/-- An empty browser: no tabs, no groups. -/
def exEmpty : BrowserState := ⟨[], [], 1, 1⟩

/-- C3 counterexample: the desired set contains two distinct URLs of the
same PR (identical normalized forms); against an empty browser the pass
creates two tabs — one per URL — not at most one for the pair. -/
theorem syncGroup_collision_two_tabs :
    normOf ghProvider exUrlFiles = normOf ghProvider exUrlBase ∧
    exUrlFiles ≠ exUrlBase ∧
    (syncGroup (some ghProvider) (.ok [exUrlFiles, exUrlBase])
        exCfg 7 exEmpty).log.createdUrls = [exUrlFiles, exUrlBase] ∧
    (syncGroup (some ghProvider) (.ok [exUrlFiles, exUrlBase])
        exCfg 7 exEmpty).log.createdTabs = [1, 2] := by decide

/-- C3 amended: two distinct desired URLs with one normalized form are
collapsed only in the matcher's keyed result; tab creation treats them
separately — in every pass that proceeds, the earlier URL of the pair is
always put on the creation list (so the pair can yield two tabs). -/
theorem syncGroup_collision_creates_earlier_url
    (p : Provider) (cfg : SyncConfig) (w : Nat) (st : BrowserState)
    (l1 l2 l3 : List Url) (u1 u2 : Url)
    (hnd : (l1 ++ u1 :: (l2 ++ u2 :: l3)).Nodup)
    (hcol : normOf p u1 = normOf p u2)
    (hne : u1 ≠ u2)
    (hout : (syncGroup (some p) (.ok (l1 ++ u1 :: (l2 ++ u2 :: l3)))
        cfg w st).log.outcome = .ok) :
    u1 ∈ (syncGroup (some p) (.ok (l1 ++ u1 :: (l2 ++ u2 :: l3)))
        cfg w st).log.createdUrls := by
  obtain ⟨hen, hsf⟩ := syncGroup_ok_enabled_safeguard p _ cfg w st hout
  rw [syncGroup_eq_run p _ cfg w st hen hsf]
  have hcu : (syncCore p (l1 ++ u1 :: (l2 ++ u2 :: l3)) cfg w
      (findOrCreateGroup w cfg.groupTitle cfg.groupColor st).1
      (findOrCreateGroup w cfg.groupTitle cfg.groupColor st).2).log.createdUrls =
      (l1 ++ u1 :: (l2 ++ u2 :: l3)).filter (fun u =>
        (listGet u (tabsByExactUrls p (l1 ++ u1 :: (l2 ++ u2 :: l3))
          (findOrCreateGroup w cfg.groupTitle cfg.groupColor st).2)).isNone) := rfl
  rw [hcu, List.mem_filter]
  refine ⟨by simp, ?_⟩
  cases hg : listGet u1 (tabsByExactUrls p (l1 ++ u1 :: (l2 ++ u2 :: l3))
      (findOrCreateGroup w cfg.groupTitle cfg.groupColor st).2) with
  | none => simp
  | some t =>
    exfalso
    unfold tabsByExactUrls at hg
    rcases mapFold_get_some_split p _ _ _ _ _ _ hg with
      ⟨c1, c2, hc, hkey, hl⟩ | ⟨hall, hacc⟩
    · cases hw : t.url with
      | none =>
        unfold tabKey at hkey
        rw [hw] at hkey
        exact absurd hkey (by simp)
      | some ww =>
        rw [tabKey_some_url p _ _ t ww hw] at hkey
        split_ifs at hkey with hcin
        unfold buildRev at hkey
        rcases revFold_get_some p _ [] _ _ hkey with
          ⟨hn1, d1, d2, hdec, hd2⟩ | ⟨hnone, hacc2⟩
        · have hbd : l2 ++ u2 :: l3 = d2 :=
            nodup_middle_inj l1 d1 (l2 ++ u2 :: l3) d2 u1 hdec hnd
          have hu2mem : u2 ∈ d2 := by rw [← hbd]; simp
          refine hd2 u2 hu2mem ?_
          rw [← hn1, hcol]
        · exact absurd hacc2 (by simp [listGet])
    · exact absurd hacc (by simp [listGet])

/-- C3 amended witness: the collision pair against the empty browser —
the earlier URL is on the creation list. -/
theorem syncGroup_collision_creates_earlier_url_witness :
    ([] ++ exUrlFiles :: ([] ++ exUrlBase :: [])).Nodup ∧
    normOf ghProvider exUrlFiles = normOf ghProvider exUrlBase ∧
    exUrlFiles ≠ exUrlBase ∧
    (syncGroup (some ghProvider) (.ok ([] ++ exUrlFiles :: ([] ++ exUrlBase :: [])))
        exCfg 7 exEmpty).log.outcome = .ok ∧
    exUrlFiles ∈ (syncGroup (some ghProvider)
        (.ok ([] ++ exUrlFiles :: ([] ++ exUrlBase :: []))) exCfg 7 exEmpty).log.createdUrls :=
  ⟨by decide, by decide, by decide, by decide,
    syncGroup_collision_creates_earlier_url ghProvider exCfg 7 exEmpty [] [] []
      exUrlFiles exUrlBase (by decide) (by decide) (by decide) (by decide)⟩

lemma syncAll_append (es1 es2 : List SweepEntry) (w : Nat) (st : BrowserState) :
    syncAll (es1 ++ es2) w st =
      ((syncAll es2 w (syncAll es1 w st).1).1,
       (syncAll es1 w st).2 ++ (syncAll es2 w (syncAll es1 w st).1).2) := by
  induction es1 generalizing st with
  | nil => simp [syncAll]
  | cons e rest ih =>
    simp [syncAll, ih]

lemma syncGroup_fetch_error (p : Provider) (e : Str) (cfg : SyncConfig) (w : Nat)
    (st : BrowserState) (hen : cfg.enabled = true) :
    syncGroup (some p) (.error e) cfg w st =
      ⟨(findOrCreateGroup w cfg.groupTitle cfg.groupColor st).2,
        emptyLog (.fetchFailed e)⟩ := by
  simp [syncGroup, hen]

/-- C7: a sweep isolates per-provider failures.  With any enabled entry
whose fetch throws sitting between two entry lists, (i) the sweep still
processes every later entry, starting from the state the failed pass left
behind; (ii) the failed pass's log is the empty fetch-failure log — it
created, grouped and closed no tabs; (iii) the only state change of the
failed pass is the group title/color repair that precedes the fetch. -/
theorem syncAll_isolates_failures
    (es1 es2 : List SweepEntry) (bad : SweepEntry) (p : Provider) (e : Str)
    (w : Nat) (st : BrowserState)
    (hen : bad.config.enabled = true)
    (hp : bad.providerOpt = some p)
    (hf : bad.fetched = .error e) :
    syncAll (es1 ++ bad :: es2) w st =
      ((syncAll es2 w (runEntry bad w (syncAll es1 w st).1).1).1,
       (syncAll es1 w st).2 ++ (runEntry bad w (syncAll es1 w st).1).2 ::
         (syncAll es2 w (runEntry bad w (syncAll es1 w st).1).1).2) ∧
    (runEntry bad w (syncAll es1 w st).1).2 = some (emptyLog (.fetchFailed e)) ∧
    (runEntry bad w (syncAll es1 w st).1).1 =
      (findOrCreateGroup w bad.config.groupTitle bad.config.groupColor
        (syncAll es1 w st).1).2 := by
  have hrun : ∀ s : BrowserState, runEntry bad w s =
      ((findOrCreateGroup w bad.config.groupTitle bad.config.groupColor s).2,
       some (emptyLog (.fetchFailed e))) := by
    intro s
    unfold runEntry
    rw [hen, hp, hf, if_pos rfl, syncGroup_fetch_error p e bad.config w s hen]
  refine ⟨?_, by rw [hrun], by rw [hrun]⟩
  rw [syncAll_append es1 (bad :: es2) w st]
  have hcons : ∀ s : BrowserState, syncAll (bad :: es2) w s =
      ((syncAll es2 w (runEntry bad w s).1).1,
       (runEntry bad w s).2 :: (syncAll es2 w (runEntry bad w s).1).2) := by
    intro s
    simp [syncAll]
  rw [hcons]

/-- A sweep entry whose fetch throws. -/
def exBadEntry : SweepEntry := ⟨some ghProvider, .error "boom".toList, exCfg⟩

/-- A sweep entry whose fetch succeeds with one PR. -/
def exGoodEntry : SweepEntry := ⟨some ghProvider, .ok [exUrlBase], exCfg⟩

/-- C7 witness: a failing entry followed by a working entry — the second
entry still runs and the failed pass mutated nothing but the group
repair. -/
theorem syncAll_isolates_failures_witness :
    syncAll ([] ++ exBadEntry :: [exGoodEntry]) 7 exEmpty =
      ((syncAll [exGoodEntry] 7 (runEntry exBadEntry 7 (syncAll [] 7 exEmpty).1).1).1,
       (syncAll [] 7 exEmpty).2 ++ (runEntry exBadEntry 7 (syncAll [] 7 exEmpty).1).2 ::
         (syncAll [exGoodEntry] 7
           (runEntry exBadEntry 7 (syncAll [] 7 exEmpty).1).1).2) ∧
    (runEntry exBadEntry 7 (syncAll [] 7 exEmpty).1).2 =
      some (emptyLog (.fetchFailed "boom".toList)) ∧
    (runEntry exBadEntry 7 (syncAll [] 7 exEmpty).1).1 =
      (findOrCreateGroup 7 exBadEntry.config.groupTitle exBadEntry.config.groupColor
        (syncAll [] 7 exEmpty).1).2 :=
  syncAll_isolates_failures [] [exGoodEntry] exBadEntry ghProvider "boom".toList 7 exEmpty
    rfl rfl rfl

/-- C4 counterexample: with a desired set containing two URLs of one PR
(a normalization collision), a successful first pass from the empty
browser leaves a state from which the second pass with the same desired
set still creates a tab (and groups it) — `syncGroup` is not idempotent. -/
theorem syncGroup_not_idempotent :
    (syncGroup (some ghProvider) (.ok [exUrlFiles, exUrlBase]) exCfg 7 exEmpty).log.outcome
      = .ok ∧
    (syncGroup (some ghProvider) (.ok [exUrlFiles, exUrlBase]) exCfg 7
      (syncGroup (some ghProvider) (.ok [exUrlFiles, exUrlBase]) exCfg 7
        exEmpty).state).log.createdUrls = [exUrlFiles] := by decide

/-- Tabs created by the sequential creation loop: consecutive fresh ids,
the desired URL, initially ungrouped. -/
def mkTabs (n : Nat) : List Url → List Tab
  | [] => []
  | u :: rest => ⟨n, some u, none⟩ :: mkTabs (n + 1) rest

lemma createTabsLoop_fst (need : List Url) (w : Nat) (st : BrowserState) :
    (createTabsLoop need w st).1 = mkTabs st.nextTabId need := by
  induction need generalizing st with
  | nil => rfl
  | cons u rest ih => simp [createTabsLoop, mkTabs, tabsCreate, ih]

lemma createTabsLoop_tabs (need : List Url) (w : Nat) (st : BrowserState) :
    (createTabsLoop need w st).2.tabs = st.tabs ++ mkTabs st.nextTabId need := by
  induction need generalizing st with
  | nil => simp [createTabsLoop, mkTabs]
  | cons u rest ih => simp [createTabsLoop, mkTabs, tabsCreate, ih]

lemma createTabsLoop_groups (need : List Url) (w : Nat) (st : BrowserState) :
    (createTabsLoop need w st).2.groups = st.groups := by
  induction need generalizing st with
  | nil => rfl
  | cons u rest ih => simp [createTabsLoop, tabsCreate, ih]

lemma createTabsLoop_nextGroupId (need : List Url) (w : Nat) (st : BrowserState) :
    (createTabsLoop need w st).2.nextGroupId = st.nextGroupId := by
  induction need generalizing st with
  | nil => rfl
  | cons u rest ih => simp [createTabsLoop, tabsCreate, ih]

lemma createTabsLoop_nextTabId (need : List Url) (w : Nat) (st : BrowserState) :
    (createTabsLoop need w st).2.nextTabId = st.nextTabId + need.length := by
  induction need generalizing st with
  | nil => rfl
  | cons u rest ih =>
    simp [createTabsLoop, tabsCreate, ih]
    omega

lemma mkTabs_mem (n : Nat) (us : List Url) (t : Tab) (h : t ∈ mkTabs n us) :
    t.groupId = none ∧ n ≤ t.id ∧ t.id < n + us.length ∧ ∃ u ∈ us, t.url = some u := by
  induction us generalizing n with
  | nil => simp [mkTabs] at h
  | cons u rest ih =>
    rw [mkTabs] at h
    rcases List.mem_cons.mp h with h1 | h2
    · subst h1
      refine ⟨rfl, Nat.le_refl _, by simp, u, by simp, rfl⟩
    · obtain ⟨hg, hle, hlt, v, hv, hurl⟩ := ih (n + 1) h2
      refine ⟨hg, by omega, by simp only [List.length_cons]; omega,
        v, by simp [hv], hurl⟩

lemma mkTabs_split (n : Nat) (us : List Url) (u : Url) (hnd : us.Nodup) (hu : u ∈ us) :
    ∃ c1 c2 t, mkTabs n us = c1 ++ t :: c2 ∧ t.url = some u ∧ t.groupId = none ∧
      n ≤ t.id ∧ t.id < n + us.length ∧
      (∀ t' ∈ c1, ∃ v ∈ us, t'.url = some v ∧ v ≠ u) ∧
      (∀ t' ∈ c2, ∃ v ∈ us, t'.url = some v ∧ v ≠ u) := by
  induction us generalizing n with
  | nil => simp at hu
  | cons u0 rest ih =>
    rcases List.mem_cons.mp hu with h1 | h2
    · subst h1
      refine ⟨[], mkTabs (n + 1) rest, ⟨n, some u, none⟩, by rw [mkTabs]; rfl, rfl, rfl,
        Nat.le_refl _, by simp, by simp, ?_⟩
      intro t' ht'
      obtain ⟨_, _, _, v, hv, hurl⟩ := mkTabs_mem (n + 1) rest t' ht'
      refine ⟨v, by simp [hv], hurl, ?_⟩
      intro he
      subst he
      exact (List.nodup_cons.mp hnd).1 hv
    · obtain ⟨c1, c2, t, heq, hurl, hg, hle, hlt, hc1, hc2⟩ :=
        ih (n + 1) (List.nodup_cons.mp hnd).2 h2
      refine ⟨⟨n, some u0, none⟩ :: c1, c2, t, by rw [mkTabs, heq]; rfl, hurl, hg,
        by omega, by simp only [List.length_cons]; omega, ?_, ?_⟩
      · intro t' ht'
        rcases List.mem_cons.mp ht' with h3 | h4
        · subst h3
          refine ⟨u0, by simp, rfl, ?_⟩
          intro he
          subst he
          exact (List.nodup_cons.mp hnd).1 h2
        · obtain ⟨v, hv, hvu, hvne⟩ := hc1 t' h4
          exact ⟨v, by simp [hv], hvu, hvne⟩
      · intro t' ht'
        obtain ⟨v, hv, hvu, hvne⟩ := hc2 t' ht'
        exact ⟨v, by simp [hv], hvu, hvne⟩

lemma map_id_of_forall {α : Type} (f : α → α) (l : List α) (h : ∀ x ∈ l, f x = x) :
    l.map f = l := by
  induction l with
  | nil => rfl
  | cons a rest ih =>
    rw [List.map_cons, h a (by simp), ih (fun x hx => h x (by simp [hx]))]

lemma groupEq_of_mem_of_id_eq {l : List TabGroup}
    (hdist : l.Pairwise (fun a b => a.id ≠ b.id))
    {a b : TabGroup} (ha : a ∈ l) (hb : b ∈ l) (hid : a.id = b.id) : a = b := by
  by_contra hne
  have hsymm : Symmetric (fun a b : TabGroup => a.id ≠ b.id) := fun x y h e => h e.symm
  exact hdist.forall hsymm ha hb hne hid

lemma safeguardHit_nonempty (urls : List Url) (g0 : Option Nat) (st : BrowserState)
    (h : urls ≠ []) : safeguardHit urls g0 st = false := by
  unfold safeguardHit
  cases g0 with
  | none => rfl
  | some g =>
    have : urls.isEmpty = false := by rw [List.isEmpty_eq_false]; exact h
    rw [this]
    rfl

/-- The per-tab update performed by `browser.tabs.group`. -/
def setG (gid : Nat) (tabIds : List Nat) (t : Tab) : Tab :=
  if tabIds.contains t.id then { t with groupId := some gid } else t

lemma tabsGroupAdd_tabs (gid : Nat) (ids : List Nat) (st : BrowserState) :
    (tabsGroupAdd gid ids st).tabs = st.tabs.map (setG gid ids) := rfl

lemma tabsGroupAdd_groups (gid : Nat) (ids : List Nat) (st : BrowserState) :
    (tabsGroupAdd gid ids st).groups = st.groups := rfl

lemma tabsGroupCreate_fst (ids : List Nat) (w : Nat) (st : BrowserState) :
    (tabsGroupCreate ids w st).1 = st.nextGroupId := rfl

lemma tabsGroupCreate_tabs (ids : List Nat) (w : Nat) (st : BrowserState) :
    (tabsGroupCreate ids w st).2.tabs = st.tabs.map (setG st.nextGroupId ids) := rfl

lemma tabsGroupCreate_groups (ids : List Nat) (w : Nat) (st : BrowserState) :
    (tabsGroupCreate ids w st).2.groups =
      st.groups ++ [⟨st.nextGroupId, [], [], w⟩] := rfl

lemma setG_url (gid : Nat) (ids : List Nat) (t : Tab) : (setG gid ids t).url = t.url := by
  unfold setG
  split <;> rfl

lemma setG_id (gid : Nat) (ids : List Nat) (t : Tab) : (setG gid ids t).id = t.id := by
  unfold setG
  split <;> rfl

lemma setG_mem (gid : Nat) (ids : List Nat) (t : Tab) (h : ids.contains t.id = true) :
    setG gid ids t = { t with groupId := some gid } := by
  unfold setG
  rw [if_pos h]

lemma setG_not_mem (gid : Nat) (ids : List Nat) (t : Tab) (h : ids.contains t.id = false) :
    setG gid ids t = t := by
  unfold setG
  rw [h]
  simp

lemma matchesQuery_setG (p : Provider) (gid : Nat) (ids : List Nat) (t : Tab) :
    matchesQuery p (setG gid ids t) = matchesQuery p t := by
  unfold matchesQuery
  rw [setG_url]

lemma prunePred_setG (p : Provider) (keep : List Url) (gid : Nat) (ids : List Nat) (t : Tab) :
    prunePred p keep (setG gid ids t) = prunePred p keep t := by
  unfold prunePred
  rw [setG_url]

lemma tabKey_setG (p : Provider) (rev : List (Url × Url)) (expected : List Url)
    (gid : Nat) (ids : List Nat) (t : Tab) :
    tabKey p rev expected (setG gid ids t) = tabKey p rev expected t := by
  unfold tabKey
  rw [setG_url]

lemma filter_matches_map_setG (p : Provider) (gid : Nat) (ids : List Nat) (l : List Tab) :
    (l.map (setG gid ids)).filter (matchesQuery p) =
      (l.filter (matchesQuery p)).map (setG gid ids) := by
  rw [List.filter_map]
  congr 1
  apply List.filter_congr
  intro t ht
  exact matchesQuery_setG p gid ids t

/-- First group with the given title among the window's groups. -/
def findT (title : Str) (w : Nat) (l : List TabGroup) : Option TabGroup :=
  (l.filter (fun g => g.windowId == w)).find? (fun g => g.title == title)

lemma findGroupByTitle_eq_findT (title : Str) (w : Nat) (st : BrowserState) :
    findGroupByTitle title w st = findT title w st.groups := rfl

/-- The per-group update performed by `browser.tabGroups.update`. -/
def updFn (gid : Nat) (title color : Str) (g : TabGroup) : TabGroup :=
  if g.id == gid then { g with title := title, color := color } else g

lemma tabGroupsUpdate_groups (gid : Nat) (title color : Str) (st : BrowserState) :
    (tabGroupsUpdate gid title color st).groups = st.groups.map (updFn gid title color) := rfl

lemma findT_cons (title : Str) (w : Nat) (g : TabGroup) (rest : List TabGroup) :
    findT title w (g :: rest) =
      if (g.windowId == w) = true then
        (if (g.title == title) = true then some g else findT title w rest)
      else findT title w rest := by
  unfold findT
  rw [List.filter_cons]
  by_cases hw : (g.windowId == w) = true
  · rw [if_pos hw, if_pos hw, List.find?_cons]
    by_cases ht : (g.title == title) = true
    · simp [ht]
    · simp [ht]
  · rw [if_neg hw, if_neg hw]

lemma findT_update (title color : Str) (w : Nat) (l : List TabGroup) (gr : TabGroup)
    (hdist : l.Pairwise (fun a b => a.id ≠ b.id))
    (h : findT title w l = some gr) :
    findT title w (l.map (updFn gr.id title color)) =
      some { gr with title := title, color := color } := by
  induction l with
  | nil => simp [findT] at h
  | cons g rest ih =>
    rw [findT_cons] at h
    rw [List.map_cons, findT_cons]
    have hwid : (updFn gr.id title color g).windowId = g.windowId := by
      unfold updFn
      split <;> rfl
    rw [hwid]
    by_cases hw : (g.windowId == w) = true
    · rw [if_pos hw] at h ⊢
      by_cases ht : (g.title == title) = true
      · rw [if_pos ht] at h
        injection h with hgr
        subst hgr
        have hupd : updFn g.id title color g = { g with title := title, color := color } := by
          unfold updFn
          rw [if_pos (by simp)]
        rw [hupd]
        rw [if_pos (by simp)]
      · rw [if_neg ht] at h
        have hmem : gr ∈ rest := by
          have h1 := List.mem_of_find?_eq_some h
          exact List.mem_of_mem_filter h1
        have hne : g.id ≠ gr.id :=
          (List.pairwise_cons.mp hdist).1 gr hmem
        have hupd : updFn gr.id title color g = g := by
          unfold updFn
          rw [if_neg (by simpa using hne)]
        have htitle : ((updFn gr.id title color g).title == title) = false := by
          rw [hupd]
          exact Bool.eq_false_iff.mpr ht
        rw [hupd, if_neg ht]
        exact ih (List.pairwise_cons.mp hdist).2 h
    · rw [if_neg hw] at h ⊢
      have hmem : gr ∈ rest := by
        have h1 := List.mem_of_find?_eq_some h
        exact List.mem_of_mem_filter h1
      have hne : g.id ≠ gr.id :=
        (List.pairwise_cons.mp hdist).1 gr hmem
      exact ih (List.pairwise_cons.mp hdist).2 h

lemma findT_append_new (title color : Str) (w gid : Nat) (l : List TabGroup)
    (hnone : findT title w l = none) :
    findT title w (l ++ [⟨gid, title, color, w⟩]) = some ⟨gid, title, color, w⟩ := by
  unfold findT at hnone ⊢
  rw [List.filter_append, List.find?_append, hnone]
  simp

lemma findT_none_update (title color : Str) (w gid : Nat) (l : List TabGroup)
    (hfresh : ∀ g ∈ l, g.id ≠ gid) :
    l.map (updFn gid title color) = l := by
  apply map_id_of_forall
  intro g hg
  unfold updFn
  rw [if_neg (by simpa using hfresh g hg)]

lemma listSet_keys_nodup [DecidableEq α] (k : α) (v : β) (m : List (α × β))
    (h : (m.map Prod.fst).Nodup) : ((listSet k v m).map Prod.fst).Nodup := by
  induction m with
  | nil => simp [listSet]
  | cons e rest ih =>
    obtain ⟨k', v'⟩ := e
    by_cases hk : k' = k
    · subst hk
      rw [listSet, if_pos rfl]
      simpa using h
    · rw [listSet, if_neg hk]
      rw [List.map_cons, List.nodup_cons] at h ⊢
      refine ⟨?_, ih h.2⟩
      intro hmem
      rw [List.mem_map] at hmem
      obtain ⟨e, he, hfst⟩ := hmem
      rcases listSet_mem he with h1 | h2
      · rw [h1] at hfst
        exact hk hfst.symm
      · exact h.1 (by rw [List.mem_map]; exact ⟨e, h2, hfst⟩)

lemma listGet_of_mem_nodup [DecidableEq α] (m : List (α × β)) (k : α) (v : β)
    (hnd : (m.map Prod.fst).Nodup) (h : (k, v) ∈ m) : listGet k m = some v := by
  induction m with
  | nil => simp at h
  | cons e rest ih =>
    obtain ⟨k', v'⟩ := e
    rw [List.map_cons, List.nodup_cons] at hnd
    rcases List.mem_cons.mp h with h1 | h2
    · injection h1 with hk hv
      rw [listGet, if_pos hk.symm]
      rw [hv]
    · have hk : k' ≠ k := by
        intro he
        subst he
        exact hnd.1 (by rw [List.mem_map]; exact ⟨(k', v), h2, rfl⟩)
      rw [listGet, if_neg hk]
      exact ih hnd.2 h2

lemma mapFold_keys_nodup (p : Provider) (rev : List (Url × Url)) (expected : List Url)
    (cands : List Tab) (acc : List (Url × Tab))
    (h : (acc.map Prod.fst).Nodup) :
    ((cands.foldl (tabStep p rev expected) acc).map Prod.fst).Nodup := by
  induction cands generalizing acc with
  | nil => exact h
  | cons t rest ih =>
    rw [List.foldl_cons]
    refine ih _ ?_
    rw [tabStep_eq]
    cases tabKey p rev expected t with
    | none => exact h
    | some k => exact listSet_keys_nodup k t acc h

lemma pairwise_id_map_setG (gid : Nat) (ids : List Nat) (l : List Tab)
    (h : l.Pairwise (fun a b => a.id ≠ b.id)) :
    (l.map (setG gid ids)).Pairwise (fun a b => a.id ≠ b.id) := by
  rw [List.pairwise_map]
  refine h.imp ?_
  intro a b hab
  rw [setG_id, setG_id]
  exact hab

lemma mkTabs_pairwise (n : Nat) (us : List Url) :
    (mkTabs n us).Pairwise (fun a b => a.id ≠ b.id) := by
  induction us generalizing n with
  | nil => simp [mkTabs]
  | cons u rest ih =>
    rw [mkTabs, List.pairwise_cons]
    refine ⟨?_, ih (n + 1)⟩
    intro t ht
    obtain ⟨_, hle, _, _⟩ := mkTabs_mem (n + 1) rest t ht
    show n ≠ t.id
    omega

lemma pairwise_id_append_mkTabs (l : List Tab) (n : Nat) (us : List Url)
    (hl : l.Pairwise (fun a b => a.id ≠ b.id)) (hbound : ∀ t ∈ l, t.id < n) :
    (l ++ mkTabs n us).Pairwise (fun a b => a.id ≠ b.id) := by
  rw [List.pairwise_append]
  refine ⟨hl, mkTabs_pairwise n us, ?_⟩
  intro a ha b hb
  obtain ⟨_, hle, _, _⟩ := mkTabs_mem n us b hb
  have := hbound a ha
  omega

lemma tabsRemove_groups (ids : List Nat) (st : BrowserState) :
    (tabsRemove ids st).groups = st.groups := rfl

lemma tabsRemove_tabs (ids : List Nat) (st : BrowserState) :
    (tabsRemove ids st).tabs = st.tabs.filter (fun t => !(ids.contains t.id)) := rfl

lemma buildRev_get_inj (p : Provider) (urls : List Url) (hnd : urls.Nodup)
    (hinj : ∀ u ∈ urls, ∀ v ∈ urls, normOf p u = normOf p v → u = v)
    (u : Url) (hu : u ∈ urls) :
    listGet (normOf p u) (buildRev p urls) = some u := by
  obtain ⟨l1, l2, heq⟩ := List.append_of_mem hu
  subst heq
  unfold buildRev
  apply revFold_get_last
  intro x hx he
  have hxmem : x ∈ l1 ++ u :: l2 := by simp [hx]
  have hxu : x = u := hinj x hxmem u (by simp) he
  subst hxu
  rw [List.nodup_middle, List.nodup_cons] at hnd
  exact hnd.1 (List.mem_append_right _ hx)

lemma tabKey_of_url_mem (p : Provider) (urls : List Url) (hnd : urls.Nodup)
    (hinj : ∀ u ∈ urls, ∀ v ∈ urls, normOf p u = normOf p v → u = v)
    (t : Tab) (u : Url) (hu : u ∈ urls) (hurl : t.url = some u) :
    tabKey p (buildRev p urls) (normalizedExpected p urls) t = some u := by
  rw [tabKey_some_url p _ _ t u hurl]
  have hc : (normalizedExpected p urls).contains (normOf p u) = true :=
    List.elem_eq_true_of_mem (List.mem_map_of_mem _ hu)
  rw [if_pos hc]
  exact buildRev_get_inj p urls hnd hinj u hu

lemma tabKey_some_spec (p : Provider) (urls : List Url) (t : Tab) (k : Url)
    (h : tabKey p (buildRev p urls) (normalizedExpected p urls) t = some k) :
    ∃ wt, t.url = some wt ∧ normOf p k = normOf p wt ∧ k ∈ urls := by
  cases hw : t.url with
  | none =>
    unfold tabKey at h
    rw [hw] at h
    exact absurd h (by simp)
  | some wt =>
    rw [tabKey_some_url p _ _ t wt hw] at h
    split_ifs at h with hcin
    unfold buildRev at h
    rcases revFold_get_some p _ [] _ _ h with ⟨hn, d1, d2, hdec, _⟩ | ⟨_, habs⟩
    · exact ⟨wt, rfl, hn, by rw [hdec]; simp⟩
    · exact absurd habs (by simp [listGet])

lemma pruneStep_desc (p : Provider) (urls : List Url) (g : Nat) (st : BrowserState) :
    ∃ closedIds : List Nat,
      (pruneStep p urls g st).1.tabs = st.tabs.filter (fun t => !(closedIds.contains t.id)) ∧
      (pruneStep p urls g st).1.groups = st.groups ∧
      (pruneStep p urls g st).1.nextTabId = st.nextTabId ∧
      (pruneStep p urls g st).1.nextGroupId = st.nextGroupId ∧
      (∀ i ∈ closedIds, ∃ tc ∈ tabsInGroup g st, tc.id = i ∧
        prunePred p (normalizedExpected p urls) tc = true) ∧
      (∀ tc ∈ tabsInGroup g st, prunePred p (normalizedExpected p urls) tc = true →
        tc.id ∈ closedIds) := by
  unfold pruneStep
  by_cases hempty :
      ((tabsInGroup g st).filter (prunePred p (normalizedExpected p urls))).isEmpty = true
  · refine ⟨[], ?_, ?_, ?_, ?_, ?_, ?_⟩
    · rw [if_pos hempty]
      exact (List.filter_eq_self.mpr (fun a _ => rfl)).symm
    · rw [if_pos hempty]
    · rw [if_pos hempty]
    · rw [if_pos hempty]
    · intro i hi
      simp at hi
    · intro tc htc hpred
      exfalso
      have hmem : tc ∈ (tabsInGroup g st).filter (prunePred p (normalizedExpected p urls)) :=
        List.mem_filter.mpr ⟨htc, hpred⟩
      rw [List.isEmpty_iff] at hempty
      rw [hempty] at hmem
      simp at hmem
  · refine ⟨((tabsInGroup g st).filter
        (prunePred p (normalizedExpected p urls))).map (fun t => t.id),
      ?_, ?_, ?_, ?_, ?_, ?_⟩
    · rw [if_neg hempty]
      rfl
    · rw [if_neg hempty]
      rfl
    · rw [if_neg hempty]
      rfl
    · rw [if_neg hempty]
      rfl
    · intro i hi
      rw [List.mem_map] at hi
      obtain ⟨tc, htc, hid⟩ := hi
      exact ⟨tc, List.mem_of_mem_filter htc, hid, List.of_mem_filter htc⟩
    · intro tc htc hpred
      rw [List.mem_map]
      exact ⟨tc, List.mem_filter.mpr ⟨htc, hpred⟩, rfl⟩

lemma setG_groupId_of_mem (g : Nat) (ids : List Nat) (t : Tab)
    (h : ids.contains t.id = true) : (setG g ids t).groupId = some g := by
  rw [setG_mem g ids t h]

lemma placeTabs_some_eq (cfg : SyncConfig) (w g : Nat) (allTabIds : List Nat)
    (st : BrowserState) :
    placeTabs cfg w (some g) allTabIds st =
      (if allTabIds.isEmpty = true then ⟨some g, [], none, st⟩
       else
         if (allTabIds.filter (fun i =>
             !(((tabsInGroup g st).map (fun t => t.id)).contains i))).isEmpty = true then
           ⟨some g, [], none, st⟩
         else
           ⟨some g,
            allTabIds.filter (fun i =>
              !(((tabsInGroup g st).map (fun t => t.id)).contains i)),
            none,
            tabsGroupAdd g (allTabIds.filter (fun i =>
              !(((tabsInGroup g st).map (fun t => t.id)).contains i))) st⟩) := rfl

lemma placeTabs_some_desc (cfg : SyncConfig) (w g : Nat) (allTabIds : List Nat)
    (st : BrowserState)
    (hdist : st.tabs.Pairwise (fun a b => a.id ≠ b.id)) :
    ∃ ids3 : List Nat,
      (∀ i ∈ ids3, i ∈ allTabIds) ∧
      (placeTabs cfg w (some g) allTabIds st).groupId = some g ∧
      (placeTabs cfg w (some g) allTabIds st).state.tabs = st.tabs.map (setG g ids3) ∧
      (placeTabs cfg w (some g) allTabIds st).state.groups = st.groups ∧
      (placeTabs cfg w (some g) allTabIds st).state.nextTabId = st.nextTabId ∧
      (placeTabs cfg w (some g) allTabIds st).state.nextGroupId = st.nextGroupId ∧
      (∀ t ∈ st.tabs, t.id ∈ allTabIds → (setG g ids3 t).groupId = some g) := by
  have hmapnil : st.tabs.map (setG g []) = st.tabs :=
    map_id_of_forall _ _ (fun t _ => setG_not_mem g [] t rfl)
  have hpe := placeTabs_some_eq cfg w g allTabIds st
  by_cases hempty : allTabIds.isEmpty = true
  · refine ⟨[], by simp, ?_, ?_, ?_, ?_, ?_, ?_⟩
    · rw [hpe, if_pos hempty]
    · rw [hpe, if_pos hempty, hmapnil]
    · rw [hpe, if_pos hempty]
    · rw [hpe, if_pos hempty]
    · rw [hpe, if_pos hempty]
    · intro t ht hid
      exfalso
      rw [List.isEmpty_iff] at hempty
      rw [hempty] at hid
      simp at hid
  · have halready : ∀ t ∈ st.tabs, t.id ∈ allTabIds →
        (((tabsInGroup g st).map (fun t => t.id)).contains t.id) = true →
        t.groupId = some g := by
      intro t ht hid hc
      have hmem : t.id ∈ (tabsInGroup g st).map (fun t => t.id) := by
        have := List.mem_of_elem_eq_true hc
        exact this
      rw [List.mem_map] at hmem
      obtain ⟨t', ht', hid'⟩ := hmem
      have ht'tabs : t' ∈ st.tabs := List.mem_of_mem_filter ht'
      have : t' = t := eq_of_mem_of_id_eq hdist ht'tabs ht hid'
      subst this
      have := List.of_mem_filter ht'
      simpa using this
    by_cases htoadd : (allTabIds.filter (fun i =>
        !(((tabsInGroup g st).map (fun t => t.id)).contains i))).isEmpty = true
    · refine ⟨[], by simp, ?_, ?_, ?_, ?_, ?_, ?_⟩
      · rw [hpe, if_neg hempty, if_pos htoadd]
      · rw [hpe, if_neg hempty, if_pos htoadd, hmapnil]
      · rw [hpe, if_neg hempty, if_pos htoadd]
      · rw [hpe, if_neg hempty, if_pos htoadd]
      · rw [hpe, if_neg hempty, if_pos htoadd]
      · intro t ht hid
        rw [setG_not_mem g [] t rfl]
        rw [List.isEmpty_iff] at htoadd
        by_cases hc : (((tabsInGroup g st).map (fun t => t.id)).contains t.id) = true
        · exact halready t ht hid hc
        · exfalso
          have hc' : (((tabsInGroup g st).map (fun t => t.id)).contains t.id) = false :=
            Bool.eq_false_iff.mpr hc
          have : t.id ∈ allTabIds.filter (fun i =>
              !(((tabsInGroup g st).map (fun t => t.id)).contains i)) := by
            rw [List.mem_filter]
            refine ⟨hid, ?_⟩
            rw [hc']
            rfl
          rw [htoadd] at this
          simp at this
    · refine ⟨allTabIds.filter (fun i =>
          !(((tabsInGroup g st).map (fun t => t.id)).contains i)),
        ?_, ?_, ?_, ?_, ?_, ?_, ?_⟩
      · intro i hi
        exact List.mem_of_mem_filter hi
      · rw [hpe, if_neg hempty, if_neg htoadd]
      · rw [hpe, if_neg hempty, if_neg htoadd]
        rfl
      · rw [hpe, if_neg hempty, if_neg htoadd]
        rfl
      · rw [hpe, if_neg hempty, if_neg htoadd]
        rfl
      · rw [hpe, if_neg hempty, if_neg htoadd]
        rfl
      · intro t ht hid
        by_cases hc : (allTabIds.filter (fun i =>
            !(((tabsInGroup g st).map (fun t => t.id)).contains i))).contains t.id = true
        · exact setG_groupId_of_mem _ _ _ hc
        · have hc' := Bool.eq_false_iff.mpr hc
          rw [setG_not_mem _ _ _ hc']
          by_cases hal : (((tabsInGroup g st).map (fun t => t.id)).contains t.id) = true
          · exact halready t ht hid hal
          · exfalso
            apply hc
            apply List.elem_eq_true_of_mem
            rw [List.mem_filter]
            refine ⟨hid, ?_⟩
            rw [Bool.eq_false_iff.mpr hal]
            rfl

lemma placeTabs_none_eq (cfg : SyncConfig) (w : Nat) (allTabIds : List Nat)
    (st : BrowserState) :
    placeTabs cfg w none allTabIds st =
      (if allTabIds.isEmpty = true then ⟨none, [], none, st⟩
       else
         ⟨some st.nextGroupId, allTabIds, some st.nextGroupId,
          tabGroupsUpdate st.nextGroupId cfg.groupTitle cfg.groupColor
            (tabsGroupCreate allTabIds w st).2⟩) := rfl

lemma placeTabs_none_desc (cfg : SyncConfig) (w : Nat) (allTabIds : List Nat)
    (st : BrowserState)
    (hne : ¬ allTabIds.isEmpty = true)
    (hfresh : ∀ gr ∈ st.groups, gr.id < st.nextGroupId) :
    (placeTabs cfg w none allTabIds st).groupId = some st.nextGroupId ∧
    (placeTabs cfg w none allTabIds st).state.tabs =
      st.tabs.map (setG st.nextGroupId allTabIds) ∧
    (placeTabs cfg w none allTabIds st).state.groups =
      st.groups ++ [⟨st.nextGroupId, cfg.groupTitle, cfg.groupColor, w⟩] ∧
    (placeTabs cfg w none allTabIds st).state.nextTabId = st.nextTabId ∧
    (placeTabs cfg w none allTabIds st).state.nextGroupId = st.nextGroupId + 1 ∧
    (∀ t ∈ st.tabs, t.id ∈ allTabIds →
      (setG st.nextGroupId allTabIds t).groupId = some st.nextGroupId) := by
  have hpe := placeTabs_none_eq cfg w allTabIds st
  refine ⟨?_, ?_, ?_, ?_, ?_, ?_⟩
  · rw [hpe, if_neg hne]
  · rw [hpe, if_neg hne]
    rfl
  · rw [hpe, if_neg hne]
    show ((tabsGroupCreate allTabIds w st).2.groups).map
      (updFn st.nextGroupId cfg.groupTitle cfg.groupColor) = _
    rw [tabsGroupCreate_groups, List.map_append]
    congr 1
    · exact findT_none_update _ _ w _ _ (fun g hg => Nat.ne_of_lt (hfresh g hg))
    · rw [List.map_cons, List.map_nil]
      congr 1
      unfold updFn
      rw [if_pos (by simp)]
  · rw [hpe, if_neg hne]
    rfl
  · rw [hpe, if_neg hne]
    rfl
  · intro t ht hid
    exact setG_groupId_of_mem _ _ _ (List.elem_eq_true_of_mem hid)

lemma syncCore_noop (p : Provider) (urls : List Url) (cfg : SyncConfig) (w : Nat)
    (g : Nat) (st : BrowserState)
    (hpick : ∀ u ∈ urls, ∃ t, listGet u (tabsByExactUrls p urls st) = some t ∧
      t ∈ st.tabs ∧ t.groupId = some g)
    (hprune : cfg.closeMissing = true → ∀ t ∈ tabsInGroup g st,
      prunePred p (normalizedExpected p urls) t = false) :
    syncCore p urls cfg w (some g) st = ⟨st, ⟨.ok, [], [], [], [], none⟩⟩ := by
  have hneed : syncNeed p urls st = [] := by
    unfold syncNeed
    rw [List.filter_eq_nil]
    intro u hu
    obtain ⟨t, hget, _, _⟩ := hpick u hu
    rw [hget]
    simp
  have hcs : createTabsLoop (syncNeed p urls st) w st = ([], st) := by
    rw [hneed]
    rfl
  have hkeysnd : ((tabsByExactUrls p urls st).map Prod.fst).Nodup := by
    unfold tabsByExactUrls
    exact mapFold_keys_nodup _ _ _ _ [] (by simp)
  have hvals : ∀ e ∈ tabsByExactUrls p urls st, e.2 ∈ st.tabs ∧ e.2.groupId = some g := by
    intro e he
    have hget : listGet e.1 (tabsByExactUrls p urls st) = some e.2 :=
      listGet_of_mem_nodup _ e.1 e.2 hkeysnd he
    have hkey := mapFold_entry_mem p (buildRev p urls) (normalizedExpected p urls)
      (tabsQueryPattern p st) [] e (by exact he)
    rcases hkey with ⟨hcand, hkeye⟩ | habs
    · obtain ⟨wt, hwurl, hwn, hkmem⟩ := tabKey_some_spec p urls e.2 e.1 hkeye
      obtain ⟨tk, hgetk, htmem, htg⟩ := hpick e.1 hkmem
      rw [hget] at hgetk
      injection hgetk with he2
      rw [he2]
      exact ⟨htmem, htg⟩
    · simp at habs
  have hallids : syncAllIds p urls w st =
      (tabsByExactUrls p urls st).map (fun e => e.2.id) := by
    unfold syncAllIds
    rw [hcs]
    simp
  have hplace : syncPlace p urls cfg w (some g) st = ⟨some g, [], none, st⟩ := by
    unfold syncPlace
    rw [hcs, hallids]
    rw [placeTabs_some_eq]
    by_cases hempty : ((tabsByExactUrls p urls st).map (fun e => e.2.id)).isEmpty = true
    · rw [if_pos hempty]
    · rw [if_neg hempty]
      have htoadd : ((tabsByExactUrls p urls st).map (fun e => e.2.id)).filter
          (fun i => !(((tabsInGroup g st).map (fun t => t.id)).contains i)) = [] := by
        rw [List.filter_eq_nil]
        intro i hi
        rw [List.mem_map] at hi
        obtain ⟨e, he, hid⟩ := hi
        obtain ⟨hmem, hgid⟩ := hvals e he
        have : i ∈ (tabsInGroup g st).map (fun t => t.id) := by
          rw [List.mem_map]
          refine ⟨e.2, ?_, hid⟩
          unfold tabsInGroup
          rw [List.mem_filter]
          exact ⟨hmem, by rw [hgid]; simp⟩
        have hcontains : ((tabsInGroup g st).map (fun t => t.id)).contains i = true :=
          List.elem_eq_true_of_mem this
        rw [hcontains]
        simp
      rw [htoadd]
      have hnilempty : (([] : List Nat)).isEmpty = true := rfl
      rw [if_pos hnilempty]
  have hprunestep : syncPrune p urls cfg w (some g) st = (st, []) := by
    unfold syncPrune
    rw [hplace]
    show (if cfg.closeMissing = true then pruneStep p urls g st else (st, [])) = (st, [])
    by_cases hcm : cfg.closeMissing = true
    · rw [if_pos hcm]
      unfold pruneStep
      have hfe : (tabsInGroup g st).filter (prunePred p (normalizedExpected p urls)) = [] := by
        rw [List.filter_eq_nil]
        intro t ht
        rw [hprune hcm t ht]
        simp
      rw [hfe]
      rfl
    · rw [if_neg hcm]
  unfold syncCore
  rw [hcs, hneed, hplace, hprunestep]
  rfl

lemma updFn_id (gid : Nat) (title color : Str) (g : TabGroup) :
    (updFn gid title color g).id = g.id := by
  unfold updFn
  split <;> rfl

lemma pairwise_id_map_updFn (gid : Nat) (title color : Str) (l : List TabGroup)
    (h : l.Pairwise (fun a b => a.id ≠ b.id)) :
    (l.map (updFn gid title color)).Pairwise (fun a b => a.id ≠ b.id) := by
  rw [List.pairwise_map]
  refine h.imp ?_
  intro a b hab
  rw [updFn_id, updFn_id]
  exact hab

lemma WFState_tabGroupsUpdate (gid : Nat) (title color : Str) (st : BrowserState)
    (hwf : WFState st) : WFState (tabGroupsUpdate gid title color st) := by
  obtain ⟨h1, h2, h3, h4⟩ := hwf
  refine ⟨h1, h2, ?_, ?_⟩
  · rw [tabGroupsUpdate_groups]
    exact pairwise_id_map_updFn gid title color _ h3
  · intro gg hg
    rw [tabGroupsUpdate_groups, List.mem_map] at hg
    obtain ⟨g', hg', he⟩ := hg
    rw [← he, updFn_id]
    exact h4 g' hg'

lemma findOrCreateGroup_some (w : Nat) (title color : Str) (st : BrowserState)
    (gr0 : TabGroup) (h : findGroupByTitle title w st = some gr0) :
    findOrCreateGroup w title color st =
      (some gr0.id, tabGroupsUpdate gr0.id title color st) := by
  unfold findOrCreateGroup
  rw [h]

lemma findOrCreateGroup_none (w : Nat) (title color : Str) (st : BrowserState)
    (h : findGroupByTitle title w st = none) :
    findOrCreateGroup w title color st = (none, st) := by
  unfold findOrCreateGroup
  rw [h]

lemma findOrCreateGroup_WF (w : Nat) (title color : Str) (st : BrowserState)
    (g0 : Option Nat) (st1 : BrowserState) (hwf : WFState st)
    (h : findOrCreateGroup w title color st = (g0, st1)) : WFState st1 := by
  cases hf : findGroupByTitle title w st with
  | some gr0 =>
    rw [findOrCreateGroup_some w title color st gr0 hf] at h
    injection h with h1 h2
    rw [← h2]
    exact WFState_tabGroupsUpdate gr0.id title color st hwf
  | none =>
    rw [findOrCreateGroup_none w title color st hf] at h
    injection h with h1 h2
    rw [← h2]
    exact hwf

lemma prunePred_false_of_tabKey (p : Provider) (urls : List Url) (t : Tab) (k : Url)
    (hk : tabKey p (buildRev p urls) (normalizedExpected p urls) t = some k) :
    prunePred p (normalizedExpected p urls) t = false := by
  obtain ⟨wt, hurl, hn, hkmem⟩ := tabKey_some_spec p urls t k hk
  unfold prunePred
  rw [hurl]
  have hc : (normalizedExpected p urls).contains (normOf p wt) = true := by
    apply List.elem_eq_true_of_mem
    rw [← hn]
    exact List.mem_map_of_mem _ hkmem
  show (!(wt == blankUrl) && !((normalizedExpected p urls).contains (normOf p wt))) = false
  rw [hc]
  simp

lemma syncAllIds_ne_empty (p : Provider) (urls : List Url) (w : Nat) (st1 : BrowserState)
    (hne : urls ≠ []) : ¬ (syncAllIds p urls w st1).isEmpty = true := by
  intro h
  rw [List.isEmpty_iff] at h
  obtain ⟨u0, hu0⟩ := List.exists_mem_of_ne_nil urls hne
  unfold syncAllIds at h
  rcases List.append_eq_nil.mp h with ⟨h1, h2⟩
  by_cases hg : (listGet u0 (tabsByExactUrls p urls st1)).isSome = true
  · obtain ⟨t0, hget0⟩ := Option.isSome_iff_exists.mp hg
    have hmem : (u0, t0) ∈ tabsByExactUrls p urls st1 := listGet_mem u0 t0 _ hget0
    have : t0.id ∈ (tabsByExactUrls p urls st1).map (fun e => e.2.id) :=
      List.mem_map.mpr ⟨(u0, t0), hmem, rfl⟩
    rw [h1] at this
    simp at this
  · have hnone : (listGet u0 (tabsByExactUrls p urls st1)).isNone = true := by
      cases hq : listGet u0 (tabsByExactUrls p urls st1) with
      | none => rfl
      | some t => exact absurd (by rw [hq]; rfl) hg
    have hu0need : u0 ∈ syncNeed p urls st1 := List.mem_filter.mpr ⟨hu0, hnone⟩
    have hc1 : (createTabsLoop (syncNeed p urls st1) w st1).1 =
        mkTabs st1.nextTabId (syncNeed p urls st1) := createTabsLoop_fst _ w st1
    rw [hc1] at h2
    cases hq : syncNeed p urls st1 with
    | nil => rw [hq] at hu0need; simp at hu0need
    | cons v rest =>
      rw [hq] at h2
      rw [mkTabs] at h2
      simp at h2

lemma syncPlace_desc (p : Provider) (urls : List Url) (cfg : SyncConfig) (w : Nat)
    (st0 st1 : BrowserState) (g0 : Option Nat)
    (hwf : WFState st0)
    (hfc : findOrCreateGroup w cfg.groupTitle cfg.groupColor st0 = (g0, st1))
    (hne : urls ≠ []) :
    ∃ (g : Nat) (ids3 : List Nat) (gr : TabGroup),
      (syncPlace p urls cfg w g0 st1).groupId = some g ∧
      (syncPlace p urls cfg w g0 st1).state.tabs =
        (st1.tabs ++ mkTabs st1.nextTabId (syncNeed p urls st1)).map (setG g ids3) ∧
      findT cfg.groupTitle w (syncPlace p urls cfg w g0 st1).state.groups = some gr ∧
      gr.id = g ∧ gr.title = cfg.groupTitle ∧ gr.color = cfg.groupColor ∧
      (syncPlace p urls cfg w g0 st1).state.groups.Pairwise (fun a b => a.id ≠ b.id) ∧
      (∀ t ∈ st1.tabs ++ mkTabs st1.nextTabId (syncNeed p urls st1),
        t.id ∈ syncAllIds p urls w st1 → (setG g ids3 t).groupId = some g) := by
  obtain ⟨hwt, hwtb, hwg, hwgb⟩ := hwf
  cases hfind0 : findGroupByTitle cfg.groupTitle w st0 with
  | some gr0 =>
    rw [findOrCreateGroup_some w cfg.groupTitle cfg.groupColor st0 gr0 hfind0] at hfc
    injection hfc with hg0 hst1
    subst hg0
    subst hst1
    have hwf1 : WFState (tabGroupsUpdate gr0.id cfg.groupTitle cfg.groupColor st0) :=
      WFState_tabGroupsUpdate gr0.id cfg.groupTitle cfg.groupColor st0 ⟨hwt, hwtb, hwg, hwgb⟩
    obtain ⟨hdist1, hbound1, _, _⟩ := hwf1
    have hdist2 : (createTabsLoop
        (syncNeed p urls (tabGroupsUpdate gr0.id cfg.groupTitle cfg.groupColor st0)) w
        (tabGroupsUpdate gr0.id cfg.groupTitle cfg.groupColor st0)).2.tabs.Pairwise
        (fun a b => a.id ≠ b.id) := by
      rw [createTabsLoop_tabs]
      exact pairwise_id_append_mkTabs _ _ _ hdist1 hbound1
    obtain ⟨ids3, hsub, hgid, htabs, hgroups, hntid, hngid, hgrp0⟩ :=
      placeTabs_some_desc cfg w gr0.id
        (syncAllIds p urls w (tabGroupsUpdate gr0.id cfg.groupTitle cfg.groupColor st0))
        (createTabsLoop
          (syncNeed p urls (tabGroupsUpdate gr0.id cfg.groupTitle cfg.groupColor st0)) w
          (tabGroupsUpdate gr0.id cfg.groupTitle cfg.groupColor st0)).2
        hdist2
    have hsp : syncPlace p urls cfg w (some gr0.id)
        (tabGroupsUpdate gr0.id cfg.groupTitle cfg.groupColor st0) =
        placeTabs cfg w (some gr0.id)
          (syncAllIds p urls w (tabGroupsUpdate gr0.id cfg.groupTitle cfg.groupColor st0))
          (createTabsLoop
            (syncNeed p urls (tabGroupsUpdate gr0.id cfg.groupTitle cfg.groupColor st0)) w
            (tabGroupsUpdate gr0.id cfg.groupTitle cfg.groupColor st0)).2 := rfl
    have hplgroups : (syncPlace p urls cfg w (some gr0.id)
        (tabGroupsUpdate gr0.id cfg.groupTitle cfg.groupColor st0)).state.groups =
        st0.groups.map (updFn gr0.id cfg.groupTitle cfg.groupColor) := by
      rw [hsp, hgroups, createTabsLoop_groups]
      exact tabGroupsUpdate_groups gr0.id cfg.groupTitle cfg.groupColor st0
    refine ⟨gr0.id, ids3, { gr0 with title := cfg.groupTitle, color := cfg.groupColor },
      ?_, ?_, ?_, rfl, rfl, rfl, ?_, ?_⟩
    · rw [hsp]
      exact hgid
    · rw [hsp, htabs, createTabsLoop_tabs]
    · rw [hplgroups]
      exact findT_update cfg.groupTitle cfg.groupColor w st0.groups gr0 hwg
        (by rw [← findGroupByTitle_eq_findT]; exact hfind0)
    · rw [hplgroups]
      exact pairwise_id_map_updFn gr0.id cfg.groupTitle cfg.groupColor st0.groups hwg
    · rw [createTabsLoop_tabs] at hgrp0
      exact hgrp0
  | none =>
    rw [findOrCreateGroup_none w cfg.groupTitle cfg.groupColor st0 hfind0] at hfc
    injection hfc with hg0 hst1
    subst hg0
    subst hst1
    have hane : ¬ (syncAllIds p urls w st0).isEmpty = true :=
      syncAllIds_ne_empty p urls w st0 hne
    have hfresh : ∀ gr' ∈ (createTabsLoop (syncNeed p urls st0) w st0).2.groups,
        gr'.id < (createTabsLoop (syncNeed p urls st0) w st0).2.nextGroupId := by
      rw [createTabsLoop_groups, createTabsLoop_nextGroupId]
      exact hwgb
    obtain ⟨hgid, htabs, hgroups, hntid, hngid, hgrp0⟩ :=
      placeTabs_none_desc cfg w (syncAllIds p urls w st0)
        (createTabsLoop (syncNeed p urls st0) w st0).2 hane hfresh
    rw [createTabsLoop_nextGroupId] at hgid htabs hgroups hgrp0
    rw [createTabsLoop_tabs] at htabs hgrp0
    rw [createTabsLoop_groups] at hgroups
    have hsp : syncPlace p urls cfg w none st0 =
        placeTabs cfg w none (syncAllIds p urls w st0)
          (createTabsLoop (syncNeed p urls st0) w st0).2 := rfl
    refine ⟨st0.nextGroupId, syncAllIds p urls w st0,
      ⟨st0.nextGroupId, cfg.groupTitle, cfg.groupColor, w⟩,
      ?_, ?_, ?_, rfl, rfl, rfl, ?_, ?_⟩
    · rw [hsp]
      exact hgid
    · rw [hsp]
      exact htabs
    · rw [hsp, hgroups]
      exact findT_append_new cfg.groupTitle cfg.groupColor w st0.nextGroupId st0.groups
        (by rw [← findGroupByTitle_eq_findT]; exact hfind0)
    · rw [hsp, hgroups]
      rw [List.pairwise_append]
      refine ⟨hwg, by simp, ?_⟩
      intro a ha b hb
      rw [List.mem_singleton] at hb
      subst hb
      have := hwgb a ha
      show a.id ≠ st0.nextGroupId
      omega
    · exact hgrp0

lemma syncCore_establish (p : Provider) (urls : List Url) (cfg : SyncConfig) (w : Nat)
    (st0 st1 : BrowserState) (g0 : Option Nat)
    (hwf : WFState st0)
    (hfc : findOrCreateGroup w cfg.groupTitle cfg.groupColor st0 = (g0, st1))
    (hnd : urls.Nodup)
    (hinj : ∀ u ∈ urls, ∀ v ∈ urls, normOf p u = normOf p v → u = v)
    (hpat : ∀ u ∈ urls, p.tabMatchPred u = true)
    (hne : urls ≠ []) :
    ∃ gr : TabGroup,
      findT cfg.groupTitle w (syncCore p urls cfg w g0 st1).state.groups = some gr ∧
      gr.title = cfg.groupTitle ∧ gr.color = cfg.groupColor ∧
      (syncCore p urls cfg w g0 st1).state.groups.Pairwise (fun a b => a.id ≠ b.id) ∧
      (∀ u ∈ urls, ∃ t,
        listGet u (tabsByExactUrls p urls (syncCore p urls cfg w g0 st1).state) = some t ∧
        t ∈ (syncCore p urls cfg w g0 st1).state.tabs ∧ t.groupId = some gr.id) ∧
      (cfg.closeMissing = true →
        ∀ t ∈ tabsInGroup gr.id (syncCore p urls cfg w g0 st1).state,
          prunePred p (normalizedExpected p urls) t = false) := by
  obtain ⟨g, ids3, gr, hplg, hpltabs, hplfind, hgrid, hgrt, hgrc, hgdist, hgrp⟩ :=
    syncPlace_desc p urls cfg w st0 st1 g0 hwf hfc hne
  subst hgrid
  have hwf1 : WFState st1 :=
    findOrCreateGroup_WF w cfg.groupTitle cfg.groupColor st0 g0 st1 hwf hfc
  obtain ⟨hdist1, hbound1, _, _⟩ := hwf1
  have hdistL : (st1.tabs ++ mkTabs st1.nextTabId (syncNeed p urls st1)).Pairwise
      (fun a b => a.id ≠ b.id) := pairwise_id_append_mkTabs _ _ _ hdist1 hbound1
  have hsp1 : syncPrune p urls cfg w g0 st1 =
      (if cfg.closeMissing = true then
        pruneStep p urls gr.id (syncPlace p urls cfg w g0 st1).state
       else ((syncPlace p urls cfg w g0 st1).state, [])) := by
    unfold syncPrune
    rw [hplg]
  obtain ⟨closedIds, hPtabs, hPgroups, hfwd, hconv⟩ :
      ∃ closedIds : List Nat,
        (syncPrune p urls cfg w g0 st1).1.tabs =
          (syncPlace p urls cfg w g0 st1).state.tabs.filter
            (fun t => !(closedIds.contains t.id)) ∧
        (syncPrune p urls cfg w g0 st1).1.groups =
          (syncPlace p urls cfg w g0 st1).state.groups ∧
        (∀ i ∈ closedIds, ∃ tc ∈ tabsInGroup gr.id (syncPlace p urls cfg w g0 st1).state,
          tc.id = i ∧ prunePred p (normalizedExpected p urls) tc = true) ∧
        (cfg.closeMissing = true →
          ∀ tc ∈ tabsInGroup gr.id (syncPlace p urls cfg w g0 st1).state,
            prunePred p (normalizedExpected p urls) tc = true → tc.id ∈ closedIds) := by
    by_cases hcm : cfg.closeMissing = true
    · obtain ⟨cids, h1, h2, _, _, h5, h6⟩ :=
        pruneStep_desc p urls gr.id (syncPlace p urls cfg w g0 st1).state
      refine ⟨cids, ?_, ?_, h5, fun _ => h6⟩
      · rw [hsp1, if_pos hcm]
        exact h1
      · rw [hsp1, if_pos hcm]
        exact h2
    · refine ⟨[], ?_, ?_, by simp, fun hc => absurd hc hcm⟩
      · rw [hsp1, if_neg hcm]
        exact (List.filter_eq_self.mpr (fun a _ => rfl)).symm
      · rw [hsp1, if_neg hcm]
  have hPtabs2 : (syncPrune p urls cfg w g0 st1).1.tabs =
      ((st1.tabs ++ mkTabs st1.nextTabId (syncNeed p urls st1)).map
        (setG gr.id ids3)).filter (fun t => !(closedIds.contains t.id)) := by
    rw [hPtabs, hpltabs]
  have hcands : tabsQueryPattern p (syncPrune p urls cfg w g0 st1).1 =
      ((st1.tabs ++ mkTabs st1.nextTabId (syncNeed p urls st1)).filter
        (fun t => matchesQuery p t && !(closedIds.contains t.id))).map (setG gr.id ids3) := by
    show ((syncPrune p urls cfg w g0 st1).1.tabs).filter (matchesQuery p) = _
    rw [hPtabs2, List.filter_filter, List.filter_map]
    congr 1
    apply List.filter_congr
    intro t ht
    show (matchesQuery p (setG gr.id ids3 t) &&
      !(closedIds.contains (setG gr.id ids3 t).id)) = _
    rw [matchesQuery_setG, setG_id]
  have hneednd : (syncNeed p urls st1).Nodup := List.Nodup.filter _ hnd
  have hneedsub : ∀ v ∈ syncNeed p urls st1, v ∈ urls :=
    fun v hv => List.mem_of_mem_filter hv
  have hnotclosed : ∀ t1 ∈ st1.tabs ++ mkTabs st1.nextTabId (syncNeed p urls st1),
      ∀ u1 : Url, tabKey p (buildRev p urls) (normalizedExpected p urls) t1 = some u1 →
      closedIds.contains t1.id = false := by
    intro t1 ht1 u1 hkey1
    by_cases hc : closedIds.contains t1.id = true
    · exfalso
      obtain ⟨tc, htcg, htcid, htcp⟩ := hfwd t1.id (List.mem_of_elem_eq_true hc)
      have htcl : tc ∈ (syncPlace p urls cfg w g0 st1).state.tabs :=
        List.mem_of_mem_filter htcg
      rw [hpltabs, List.mem_map] at htcl
      obtain ⟨t0, ht0, he⟩ := htcl
      have hid0 : t0.id = t1.id := by rw [← htcid, ← he, setG_id]
      have ht0t : t0 = t1 := eq_of_mem_of_id_eq hdistL ht0 ht1 hid0
      rw [← he, prunePred_setG, ht0t,
        prunePred_false_of_tabKey p urls t1 u1 hkey1] at htcp
      exact absurd htcp (by simp)
    · exact Bool.eq_false_iff.mpr hc
  have hpickP : ∀ u ∈ urls, ∃ t,
      listGet u (tabsByExactUrls p urls (syncPrune p urls cfg w g0 st1).1) = some t ∧
      t ∈ (syncPrune p urls cfg w g0 st1).1.tabs ∧ t.groupId = some gr.id := by
    intro u hu
    by_cases hmu : (listGet u (tabsByExactUrls p urls st1)).isSome = true
    · obtain ⟨t1, hget1⟩ := Option.isSome_iff_exists.mp hmu
      have hget1' : listGet u ((tabsQueryPattern p st1).foldl
          (tabStep p (buildRev p urls) (normalizedExpected p urls)) []) = some t1 := hget1
      rcases mapFold_get_some_split p (buildRev p urls) (normalizedExpected p urls)
          (tabsQueryPattern p st1) [] u t1 hget1' with
        ⟨c1, c2, hLdec, hkey1, hlast1⟩ | ⟨_, habs⟩
      swap
      · exact absurd habs (by simp [listGet])
      have ht1c : t1 ∈ tabsQueryPattern p st1 := by
        rw [hLdec]
        exact List.mem_append_right _ (by simp)
      have ht1tabs : t1 ∈ st1.tabs := List.mem_of_mem_filter ht1c
      have ht1mq : matchesQuery p t1 = true := List.of_mem_filter ht1c
      have ht1L : t1 ∈ st1.tabs ++ mkTabs st1.nextTabId (syncNeed p urls st1) :=
        List.mem_append_left _ ht1tabs
      have hkeep1 : closedIds.contains t1.id = false := hnotclosed t1 ht1L u hkey1
      have hF1 : (matchesQuery p t1 && !(closedIds.contains t1.id)) = true := by
        rw [ht1mq, hkeep1]
        rfl
      have hunotneed : u ∉ syncNeed p urls st1 := by
        intro hmem
        have hmem' : u ∈ urls.filter
            (fun v => (listGet v (tabsByExactUrls p urls st1)).isNone) := hmem
        have hiso := List.of_mem_filter hmem'
        rw [hget1] at hiso
        exact absurd hiso (by simp)
      have hsplitst1 : (st1.tabs).filter
          (fun t => matchesQuery p t && !(closedIds.contains t.id)) =
          c1.filter (fun t => !(closedIds.contains t.id)) ++ t1 ::
            c2.filter (fun t => !(closedIds.contains t.id)) := by
        have e1 : (st1.tabs).filter
            (fun t => matchesQuery p t && !(closedIds.contains t.id)) =
            (st1.tabs.filter (matchesQuery p)).filter
              (fun t => !(closedIds.contains t.id)) := by
          rw [List.filter_filter]
          exact List.filter_congr (fun t _ => Bool.and_comm _ _)
        have hLdec' : st1.tabs.filter (matchesQuery p) = c1 ++ t1 :: c2 := hLdec
        have hkt1 : (!(closedIds.contains t1.id)) = true := by rw [hkeep1]; rfl
        rw [e1, hLdec', List.filter_append, List.filter_cons, if_pos hkt1]
      have hLF : (st1.tabs ++ mkTabs st1.nextTabId (syncNeed p urls st1)).filter
          (fun t => matchesQuery p t && !(closedIds.contains t.id)) =
          c1.filter (fun t => !(closedIds.contains t.id)) ++ t1 ::
            (c2.filter (fun t => !(closedIds.contains t.id)) ++
             (mkTabs st1.nextTabId (syncNeed p urls st1)).filter
               (fun t => matchesQuery p t && !(closedIds.contains t.id))) := by
        rw [List.filter_append, hsplitst1, List.append_assoc, List.cons_append]
      have hdecomp : tabsByExactUrls p urls (syncPrune p urls cfg w g0 st1).1 =
          ((c1.filter (fun t => !(closedIds.contains t.id))).map (setG gr.id ids3) ++
            setG gr.id ids3 t1 ::
            ((c2.filter (fun t => !(closedIds.contains t.id)) ++
              (mkTabs st1.nextTabId (syncNeed p urls st1)).filter
                (fun t => matchesQuery p t && !(closedIds.contains t.id))).map
              (setG gr.id ids3))).foldl
            (tabStep p (buildRev p urls) (normalizedExpected p urls)) [] := by
        show (tabsQueryPattern p (syncPrune p urls cfg w g0 st1).1).foldl
            (tabStep p (buildRev p urls) (normalizedExpected p urls)) [] = _
        rw [hcands, hLF, List.map_append, List.map_cons]
      refine ⟨setG gr.id ids3 t1, ?_, ?_, ?_⟩
      · rw [hdecomp]
        apply mapFold_get_last
        · rw [tabKey_setG]
          exact hkey1
        · intro t' ht'
          rw [List.mem_map] at ht'
          obtain ⟨t0, ht0, he⟩ := ht'
          rw [← he, tabKey_setG]
          rcases List.mem_append.mp ht0 with h1 | h2
          · exact hlast1 t0 (List.mem_of_mem_filter h1)
          · have ht0mk : t0 ∈ mkTabs st1.nextTabId (syncNeed p urls st1) :=
              List.mem_of_mem_filter h2
            obtain ⟨_, _, _, v, hv, hurl0⟩ := mkTabs_mem _ _ t0 ht0mk
            rw [tabKey_of_url_mem p urls hnd hinj t0 v (hneedsub v hv) hurl0]
            intro hcon
            injection hcon with hvu
            subst hvu
            exact hunotneed hv
      · have h1 : setG gr.id ids3 t1 ∈
            tabsQueryPattern p (syncPrune p urls cfg w g0 st1).1 := by
          rw [hcands]
          exact List.mem_map_of_mem _ (List.mem_filter.mpr ⟨ht1L, hF1⟩)
        exact List.mem_of_mem_filter h1
      · have hid1 : t1.id ∈ syncAllIds p urls w st1 := by
          have h1 : (u, t1) ∈ tabsByExactUrls p urls st1 := listGet_mem u t1 _ hget1
          have h2 : t1.id ∈ (tabsByExactUrls p urls st1).map (fun e => e.2.id) :=
            List.mem_map.mpr ⟨(u, t1), h1, rfl⟩
          show t1.id ∈ (tabsByExactUrls p urls st1).map (fun e => e.2.id) ++
            (createTabsLoop (syncNeed p urls st1) w st1).1.map (fun t => t.id)
          exact List.mem_append_left _ h2
        exact hgrp t1 ht1L hid1
    · have hnone : (listGet u (tabsByExactUrls p urls st1)).isNone = true := by
        cases hq : listGet u (tabsByExactUrls p urls st1) with
        | none => rfl
        | some t => exact absurd (by rw [hq]; rfl) hmu
      have hun : u ∈ syncNeed p urls st1 := List.mem_filter.mpr ⟨hu, hnone⟩
      obtain ⟨d1, d2, tu, hmkdec, hurlu, hgu, hleu, hltu, hd1, hd2⟩ :=
        mkTabs_split st1.nextTabId (syncNeed p urls st1) u hneednd hun
      have htuMk : tu ∈ mkTabs st1.nextTabId (syncNeed p urls st1) := by
        rw [hmkdec]
        exact List.mem_append_right _ (by simp)
      have htuL : tu ∈ st1.tabs ++ mkTabs st1.nextTabId (syncNeed p urls st1) :=
        List.mem_append_right _ htuMk
      have hmqu : matchesQuery p tu = true := by
        unfold matchesQuery
        rw [hurlu]
        exact hpat u hu
      have hkeyu : tabKey p (buildRev p urls) (normalizedExpected p urls) tu = some u :=
        tabKey_of_url_mem p urls hnd hinj tu u hu hurlu
      have hkeepu : closedIds.contains tu.id = false := hnotclosed tu htuL u hkeyu
      have hFu : (matchesQuery p tu && !(closedIds.contains tu.id)) = true := by
        rw [hmqu, hkeepu]
        rfl
      have hmkF : (mkTabs st1.nextTabId (syncNeed p urls st1)).filter
          (fun t => matchesQuery p t && !(closedIds.contains t.id)) =
          d1.filter (fun t => matchesQuery p t && !(closedIds.contains t.id)) ++ tu ::
            d2.filter (fun t => matchesQuery p t && !(closedIds.contains t.id)) := by
        rw [hmkdec, List.filter_append, List.filter_cons, if_pos hFu]
      have hLF : (st1.tabs ++ mkTabs st1.nextTabId (syncNeed p urls st1)).filter
          (fun t => matchesQuery p t && !(closedIds.contains t.id)) =
          (st1.tabs.filter (fun t => matchesQuery p t && !(closedIds.contains t.id)) ++
           d1.filter (fun t => matchesQuery p t && !(closedIds.contains t.id))) ++ tu ::
            d2.filter (fun t => matchesQuery p t && !(closedIds.contains t.id)) := by
        rw [List.filter_append, hmkF, ← List.append_assoc]
      have hdecomp : tabsByExactUrls p urls (syncPrune p urls cfg w g0 st1).1 =
          ((st1.tabs.filter (fun t => matchesQuery p t && !(closedIds.contains t.id)) ++
            d1.filter (fun t => matchesQuery p t && !(closedIds.contains t.id))).map
            (setG gr.id ids3) ++
           setG gr.id ids3 tu ::
            (d2.filter (fun t => matchesQuery p t && !(closedIds.contains t.id))).map
              (setG gr.id ids3)).foldl
            (tabStep p (buildRev p urls) (normalizedExpected p urls)) [] := by
        show (tabsQueryPattern p (syncPrune p urls cfg w g0 st1).1).foldl
            (tabStep p (buildRev p urls) (normalizedExpected p urls)) [] = _
        rw [hcands, hLF, List.map_append, List.map_cons]
      refine ⟨setG gr.id ids3 tu, ?_, ?_, ?_⟩
      · rw [hdecomp]
        apply mapFold_get_last
        · rw [tabKey_setG]
          exact hkeyu
        · intro t' ht'
          rw [List.mem_map] at ht'
          obtain ⟨t0, ht0, he⟩ := ht'
          rw [← he, tabKey_setG]
          obtain ⟨v, hv, hurl0, hvne⟩ := hd2 t0 (List.mem_of_mem_filter ht0)
          rw [tabKey_of_url_mem p urls hnd hinj t0 v (hneedsub v hv) hurl0]
          intro hcon
          injection hcon with hvu
          exact hvne hvu
      · have h1 : setG gr.id ids3 tu ∈
            tabsQueryPattern p (syncPrune p urls cfg w g0 st1).1 := by
          rw [hcands]
          exact List.mem_map_of_mem _ (List.mem_filter.mpr ⟨htuL, hFu⟩)
        exact List.mem_of_mem_filter h1
      · have hidu : tu.id ∈ syncAllIds p urls w st1 := by
          have h2 : tu.id ∈ (createTabsLoop (syncNeed p urls st1) w st1).1.map
              (fun t => t.id) := by
            rw [createTabsLoop_fst]
            exact List.mem_map.mpr ⟨tu, htuMk, rfl⟩
          show tu.id ∈ (tabsByExactUrls p urls st1).map (fun e => e.2.id) ++
            (createTabsLoop (syncNeed p urls st1) w st1).1.map (fun t => t.id)
          exact List.mem_append_right _ h2
        exact hgrp tu htuL hidu
  have hpruneP : cfg.closeMissing = true →
      ∀ t ∈ tabsInGroup gr.id (syncPrune p urls cfg w g0 st1).1,
        prunePred p (normalizedExpected p urls) t = false := by
    intro hcm t ht
    have ht' : t ∈ (syncPrune p urls cfg w g0 st1).1.tabs.filter
        (fun tb => tb.groupId == some gr.id) := ht
    have htt : t ∈ (syncPrune p urls cfg w g0 st1).1.tabs := List.mem_of_mem_filter ht'
    have htg := List.of_mem_filter ht'
    rw [hPtabs] at htt
    have htPl : t ∈ (syncPlace p urls cfg w g0 st1).state.tabs :=
      List.mem_of_mem_filter htt
    have hkeept : (!(closedIds.contains t.id)) = true :=
      @List.of_mem_filter Tab (fun tb => !(closedIds.contains tb.id)) _ _ htt
    cases hb : prunePred p (normalizedExpected p urls) t with
    | false => rfl
    | true =>
      exfalso
      have htgPl : t ∈ tabsInGroup gr.id (syncPlace p urls cfg w g0 st1).state :=
        List.mem_filter.mpr ⟨htPl, htg⟩
      have hclose : t.id ∈ closedIds := hconv hcm t htgPl hb
      have hcc : closedIds.contains t.id = true := List.elem_eq_true_of_mem hclose
      rw [hcc] at hkeept
      exact absurd hkeept (by simp)
  refine ⟨gr, ?_, hgrt, hgrc, ?_, ?_, ?_⟩
  · show findT cfg.groupTitle w (syncPrune p urls cfg w g0 st1).1.groups = some gr
    rw [hPgroups]
    exact hplfind
  · show (syncPrune p urls cfg w g0 st1).1.groups.Pairwise (fun a b => a.id ≠ b.id)
    rw [hPgroups]
    exact hgdist
  · exact hpickP
  · exact hpruneP

/-- C4 (amended): one `syncGroup` pass is idempotent only under the proviso
that no two distinct desired URLs normalize to the same canonical form
(`syncGroup_not_idempotent` refutes the unconditional claim).  For a
well-formed browser state, an enabled config, and a nonempty,
duplicate-free desired set whose URLs match the provider's tab pattern
and whose normalized forms are injective, a second pass over the state
produced by a first pass issues no additional mutations: it returns the
same state, creates no tab, groups no tab, closes no tab, and creates no
group. -/
theorem syncGroup_idempotent_of_injective_norm (p : Provider) (urls : List Url)
    (cfg : SyncConfig) (w : Nat) (st0 : BrowserState)
    (hwf : WFState st0) (hen : cfg.enabled = true) (hne : urls ≠ [])
    (hnd : urls.Nodup)
    (hinj : ∀ u ∈ urls, ∀ v ∈ urls, normOf p u = normOf p v → u = v)
    (hpat : ∀ u ∈ urls, p.tabMatchPred u = true) :
    syncGroup (some p) (.ok urls) cfg w (syncGroup (some p) (.ok urls) cfg w st0).state =
      ⟨(syncGroup (some p) (.ok urls) cfg w st0).state, ⟨.ok, [], [], [], [], none⟩⟩ := by
  have hsf1 : safeguardHit urls (findOrCreateGroup w cfg.groupTitle cfg.groupColor st0).1
      (findOrCreateGroup w cfg.groupTitle cfg.groupColor st0).2 = false :=
    safeguardHit_nonempty _ _ _ hne
  have hpass1 := syncGroup_eq_run p urls cfg w st0 hen hsf1
  obtain ⟨gr, hfind, hgrt, hgrc, hgdist, hpick, hprune⟩ :=
    syncCore_establish p urls cfg w st0
      (findOrCreateGroup w cfg.groupTitle cfg.groupColor st0).2
      (findOrCreateGroup w cfg.groupTitle cfg.groupColor st0).1
      hwf rfl hnd hinj hpat hne
  have hstate : (syncGroup (some p) (.ok urls) cfg w st0).state =
      (syncCore p urls cfg w (findOrCreateGroup w cfg.groupTitle cfg.groupColor st0).1
        (findOrCreateGroup w cfg.groupTitle cfg.groupColor st0).2).state := by
    rw [hpass1]
  have hfindS1 : findGroupByTitle cfg.groupTitle w
      (syncGroup (some p) (.ok urls) cfg w st0).state = some gr := by
    rw [findGroupByTitle_eq_findT, hstate]
    exact hfind
  have hgdistS1 : (syncGroup (some p) (.ok urls) cfg w st0).state.groups.Pairwise
      (fun a b => a.id ≠ b.id) := by
    rw [hstate]
    exact hgdist
  have hmemS1 : gr ∈ (syncGroup (some p) (.ok urls) cfg w st0).state.groups := by
    rw [hstate]
    exact List.mem_of_mem_filter (List.mem_of_find?_eq_some hfind)
  have hupd : tabGroupsUpdate gr.id cfg.groupTitle cfg.groupColor
      (syncGroup (some p) (.ok urls) cfg w st0).state =
      (syncGroup (some p) (.ok urls) cfg w st0).state := by
    have hgid : ((syncGroup (some p) (.ok urls) cfg w st0).state.groups).map
        (updFn gr.id cfg.groupTitle cfg.groupColor) =
        (syncGroup (some p) (.ok urls) cfg w st0).state.groups := by
      apply map_id_of_forall
      intro g' hg'
      by_cases he : g'.id = gr.id
      · have hgg : g' = gr := groupEq_of_mem_of_id_eq hgdistS1 hg' hmemS1 he
        subst hgg
        unfold updFn
        rw [if_pos (by simp)]
        rw [← hgrt, ← hgrc]
      · unfold updFn
        rw [if_neg (by simpa using he)]
    show { (syncGroup (some p) (.ok urls) cfg w st0).state with
      groups := ((syncGroup (some p) (.ok urls) cfg w st0).state.groups).map
        (updFn gr.id cfg.groupTitle cfg.groupColor) } =
      (syncGroup (some p) (.ok urls) cfg w st0).state
    rw [hgid]
  have hfc2 : findOrCreateGroup w cfg.groupTitle cfg.groupColor
      (syncGroup (some p) (.ok urls) cfg w st0).state =
      (some gr.id, (syncGroup (some p) (.ok urls) cfg w st0).state) := by
    rw [findOrCreateGroup_some w cfg.groupTitle cfg.groupColor _ gr hfindS1, hupd]
  have hsf2 : safeguardHit urls
      (findOrCreateGroup w cfg.groupTitle cfg.groupColor
        (syncGroup (some p) (.ok urls) cfg w st0).state).1
      (findOrCreateGroup w cfg.groupTitle cfg.groupColor
        (syncGroup (some p) (.ok urls) cfg w st0).state).2 = false :=
    safeguardHit_nonempty _ _ _ hne
  have hpass2 := syncGroup_eq_run p urls cfg w
    (syncGroup (some p) (.ok urls) cfg w st0).state hen hsf2
  rw [hpass2]
  have h1 : (findOrCreateGroup w cfg.groupTitle cfg.groupColor
      (syncGroup (some p) (.ok urls) cfg w st0).state).1 = some gr.id := by
    rw [hfc2]
  have h2 : (findOrCreateGroup w cfg.groupTitle cfg.groupColor
      (syncGroup (some p) (.ok urls) cfg w st0).state).2 =
      (syncGroup (some p) (.ok urls) cfg w st0).state := by
    rw [hfc2]
  rw [h1, h2]
  apply syncCore_noop
  · intro u hu
    obtain ⟨t, hget, hmem, hgid⟩ := hpick u hu
    refine ⟨t, ?_, ?_, hgid⟩
    · rw [hstate]
      exact hget
    · rw [hstate]
      exact hmem
  · intro hcm t ht
    rw [hstate] at ht
    exact hprune hcm t ht

/-- C4 witness: a concrete idempotent run — one GitHub PR URL synced into
an empty browser, then synced again without further mutation. -/
theorem syncGroup_idempotent_of_injective_norm_witness :
    (WFState exEmpty ∧ [exUrlBase] ≠ []) ∧
    syncGroup (some ghProvider) (.ok [exUrlBase]) exCfg 7
        (syncGroup (some ghProvider) (.ok [exUrlBase]) exCfg 7 exEmpty).state =
      ⟨(syncGroup (some ghProvider) (.ok [exUrlBase]) exCfg 7 exEmpty).state,
       ⟨.ok, [], [], [], [], none⟩⟩ :=
  ⟨⟨by decide, by decide⟩,
   syncGroup_idempotent_of_injective_norm ghProvider [exUrlBase] exCfg 7 exEmpty
     (by decide) rfl (by decide) (by decide) (by decide) (by decide)⟩
